import Mathlib

/-!
Shallow embedding of the single-file order-book program (`OrderBook.cpp`).

Modelling choices:
- C++ `int` fields are modelled as mathematical `Int`; no claim under
  consideration depends on 32-bit overflow behaviour.
- `std::string` is modelled as `List Char`.
- The two `std::priority_queue`s (with `Order::operator<` comparing prices
  in reverse, so that the Ask heap yields the minimum-price order and the
  Bid heap the maximum-price order) are modelled as plain lists together
  with a selection function returning a best-priced element and the list
  of remaining elements.  The tie order among equal-priced orders is
  unspecified in the source (heap order); the model deterministically
  picks the leftmost best-priced element.
-/

/-- The `Order` class: type string ("ASK"/"BID"), price, quantity, id. -/
structure Order where
  type : List Char
  price : Int
  quantity : Int
  orderID : Int
deriving DecidableEq

/-- The trade record printed by `matchBidAsk`:
"Matched: Ask Order ID a with Bid Order ID b, Quantity m, Price p". -/
structure Trade where
  askOrderID : Int
  bidOrderID : Int
  quantity : Int
  price : Int
deriving DecidableEq

/-- Selection of a best element from a heap-modelling list: returns the
leftmost element minimising `key`, together with the remaining elements.
Instantiated with `key = price` for the Ask heap and `key = -price` for
the Bid heap (the source inverts the comparator in `Order::operator<`). -/
def selectBest (key : Order → Int) : List Order → Option (Order × List Order)
  | [] => none
  | o :: rest =>
    match selectBest key rest with
    | none => some (o, [])
    | some (m, rest') =>
      if key o ≤ key m then some (o, rest) else some (m, o :: rest')

/-- `bestAsk.top()` / `bestAsk.pop()`: the Ask heap yields the
minimum-price order. -/
def minPriceSelect : List Order → Option (Order × List Order) :=
  selectBest (fun o => o.price)

/-- `bestBid.top()` / `bestBid.pop()`: the Bid heap yields the
maximum-price order. -/
def maxPriceSelect : List Order → Option (Order × List Order) :=
  selectBest (fun o => -o.price)

/-- The `OrderBookData` class: the two priority queues. -/
structure OrderBookData where
  bestAsk : List Order
  bestBid : List Order
deriving DecidableEq

/-- `OrderBookData::addAskOrder`. -/
def addAskOrder (o : Order) (d : OrderBookData) : OrderBookData :=
  { d with bestAsk := o :: d.bestAsk }

/-- `OrderBookData::addBidOrder`. -/
def addBidOrder (o : Order) (d : OrderBookData) : OrderBookData :=
  { d with bestBid := o :: d.bestBid }

theorem selectBest_nil (key : Order → Int) : selectBest key [] = none := rfl

theorem selectBest_eq_none {key : Order → Int} {l : List Order}
    (h : selectBest key l = none) : l = [] := by
  cases l with
  | nil => rfl
  | cons o rest =>
    simp only [selectBest] at h
    cases hr : selectBest key rest with
    | none => rw [hr] at h; exact absurd h (by simp)
    | some p =>
      rw [hr] at h
      cases p with
      | mk m rest' =>
        by_cases hk : key o ≤ key m <;> simp [hk] at h

theorem selectBest_isSome {k : Order → Int} {l : List Order}
    (h : l ≠ []) : ∃ o rest, selectBest k l = some (o, rest) := by
  cases hs : selectBest k l with
  | none => exact absurd (selectBest_eq_none hs) h
  | some p => exact ⟨p.1, p.2, by simp [hs]⟩

theorem selectBest_perm {key : Order → Int} :
    ∀ {l : List Order} {o : Order} {rest : List Order},
      selectBest key l = some (o, rest) → List.Perm l (o :: rest)
  | [], _, _, h => by simp [selectBest] at h
  | x :: xs, o, rest, h => by
    simp only [selectBest] at h
    cases hr : selectBest key xs with
    | none =>
      rw [hr] at h
      have hxs : xs = [] := selectBest_eq_none hr
      simp only [Option.some.injEq, Prod.mk.injEq] at h
      rw [← h.1, ← h.2, hxs]
    | some p =>
      rw [hr] at h
      obtain ⟨m, rest'⟩ := p
      have hperm : List.Perm xs (m :: rest') := selectBest_perm hr
      by_cases hk : key x ≤ key m
      · simp only [hk, if_true, Option.some.injEq, Prod.mk.injEq] at h
        rw [← h.1, ← h.2]
      · simp only [hk, if_false, Option.some.injEq, Prod.mk.injEq] at h
        rw [← h.1, ← h.2]
        exact (hperm.cons x).trans (List.Perm.swap m x rest')

theorem selectBest_min {key : Order → Int} :
    ∀ {l : List Order} {o : Order} {rest : List Order},
      selectBest key l = some (o, rest) → ∀ x ∈ l, key o ≤ key x
  | [], _, _, h => by simp [selectBest] at h
  | x :: xs, o, rest, h => by
    simp only [selectBest] at h
    cases hr : selectBest key xs with
    | none =>
      rw [hr] at h
      have hxs : xs = [] := selectBest_eq_none hr
      simp only [Option.some.injEq, Prod.mk.injEq] at h
      intro y hy
      rw [hxs] at hy
      simp at hy
      rw [← h.1, hy]
    | some p =>
      rw [hr] at h
      obtain ⟨m, rest'⟩ := p
      have hmin : ∀ x ∈ xs, key m ≤ key x := selectBest_min hr
      by_cases hk : key x ≤ key m
      · simp only [hk, if_true, Option.some.injEq, Prod.mk.injEq] at h
        intro y hy
        rcases List.mem_cons.mp hy with hy | hy
        · rw [← h.1, hy]
        · rw [← h.1]; exact le_trans hk (hmin y hy)
      · simp only [hk, if_false, Option.some.injEq, Prod.mk.injEq] at h
        intro y hy
        rcases List.mem_cons.mp hy with hy | hy
        · rw [← h.1, hy]; exact le_of_lt (lt_of_not_le hk)
        · rw [← h.1]; exact hmin y hy

theorem selectBest_length {key : Order → Int} {l : List Order} {o : Order}
    {rest : List Order} (h : selectBest key l = some (o, rest)) :
    l.length = rest.length + 1 := by
  have := (selectBest_perm h).length_eq
  simpa using this

theorem selectBest_mem {key : Order → Int} {l : List Order} {o : Order}
    {rest : List Order} (h : selectBest key l = some (o, rest)) : o ∈ l :=
  (selectBest_perm h).mem_iff.mpr (List.mem_cons_self o rest)

theorem selectBest_rest_subset {key : Order → Int} {l : List Order}
    {o : Order} {rest : List Order} (h : selectBest key l = some (o, rest)) :
    ∀ x ∈ rest, x ∈ l := by
  intro x hx
  exact (selectBest_perm h).mem_iff.mpr (List.mem_cons_of_mem o hx)

/-- The loop body of `OrderBook::matchBidAsk`, returning the final Ask
heap, the final Bid heap and the list of emitted trade records.  One
iteration: if either side is empty or the best ask's price exceeds the
best bid's price, stop with no trade; otherwise trade
`min(askQuantity, bidQuantity)` at the ask's price, pop both orders and
re-insert each with its decremented quantity only if that residual is
positive. -/
def matchLoop (ask bid : List Order) : List Order × List Order × List Trade :=
  match hA : minPriceSelect ask, hB : maxPriceSelect bid with
  | some (a, ask'), some (b, bid') =>
    if b.price < a.price then (ask, bid, [])
    else
      let m := min a.quantity b.quantity
      let a' : Order := { a with quantity := a.quantity - m }
      let b' : Order := { b with quantity := b.quantity - m }
      let newAsk := if 0 < a'.quantity then a' :: ask' else ask'
      let newBid := if 0 < b'.quantity then b' :: bid' else bid'
      let r := matchLoop newAsk newBid
      (r.1, r.2.1, ⟨a.orderID, b.orderID, m, a.price⟩ :: r.2.2)
  | _, _ => (ask, bid, [])
termination_by ask.length + bid.length
decreasing_by
  have hla : ask.length = ask'.length + 1 := selectBest_length hA
  have hlb : bid.length = bid'.length + 1 := selectBest_length hB
  have hone : a.quantity - min a.quantity b.quantity = 0 ∨
      b.quantity - min a.quantity b.quantity = 0 := by
    rcases le_total a.quantity b.quantity with hle | hle
    · left; rw [min_eq_left hle]; omega
    · right; rw [min_eq_right hle]; omega
  split_ifs <;> simp_all [List.length_cons] <;> omega

/-- The loop of `OrderBook::marketBuy`: while the requested quantity is
non-zero and the Ask heap is non-empty, pop the best ask, subtract
`min(quantity, askQuantity)` from both, and re-insert the ask only if
its residual quantity is positive. -/
def marketBuyLoop (quantity : Int) (ask : List Order) : List Order :=
  if quantity = 0 then ask
  else
    match hA : minPriceSelect ask with
    | none => ask
    | some (a, ask') =>
      let m := min quantity a.quantity
      let aq := a.quantity - m
      let newAsk := if 0 < aq then { a with quantity := aq } :: ask' else ask'
      marketBuyLoop (quantity - m) newAsk
termination_by 2 * ask.length + (if quantity = 0 then 0 else 1)
decreasing_by
  have hla : ask.length = ask'.length + 1 := selectBest_length hA
  rcases le_total quantity a.quantity with hle | hle
  · have hm : min quantity a.quantity = quantity := min_eq_left hle
    split_ifs <;> simp_all [List.length_cons] <;> omega
  · have hm : min quantity a.quantity = a.quantity := min_eq_right hle
    split_ifs <;> simp_all [List.length_cons] <;> omega

/-- The loop of `OrderBook::marketSell`: symmetric, against the Bid heap. -/
def marketSellLoop (quantity : Int) (bid : List Order) : List Order :=
  if quantity = 0 then bid
  else
    match hB : maxPriceSelect bid with
    | none => bid
    | some (b, bid') =>
      let m := min quantity b.quantity
      let bq := b.quantity - m
      let newBid := if 0 < bq then { b with quantity := bq } :: bid' else bid'
      marketSellLoop (quantity - m) newBid
termination_by 2 * bid.length + (if quantity = 0 then 0 else 1)
decreasing_by
  have hlb : bid.length = bid'.length + 1 := selectBest_length hB
  rcases le_total quantity b.quantity with hle | hle
  · have hm : min quantity b.quantity = quantity := min_eq_left hle
    split_ifs <;> simp_all [List.length_cons] <;> omega
  · have hm : min quantity b.quantity = b.quantity := min_eq_right hle
    split_ifs <;> simp_all [List.length_cons] <;> omega

/-- The `OrderBook` class state: the owned `OrderBookData` plus the
order-ID counter (`int orderID = 0`). -/
structure OrderBook where
  data : OrderBookData
  orderID : Int
deriving DecidableEq

/-- The `OrderBook` constructor: the counter starts at 0 and the book is
whatever `deserialise` loaded from the snapshot file; the counter is NOT
advanced past the ids of the loaded orders. -/
def mkOrderBook (loaded : OrderBookData) : OrderBook :=
  { data := loaded, orderID := 0 }

/-- The character list "ASK". -/
def strASK : List Char := ['A', 'S', 'K']

/-- The character list "BID". -/
def strBID : List Char := ['B', 'I', 'D']

/-- `OrderBook::placeAsk`: constructs `Order("ASK", price, quantity,
++orderID)` and inserts it into the Ask heap.  There is no validation of
`price` or `quantity` in the source. -/
def placeAsk (price quantity : Int) (ob : OrderBook) : OrderBook :=
  { data := addAskOrder ⟨strASK, price, quantity, ob.orderID + 1⟩ ob.data,
    orderID := ob.orderID + 1 }

/-- `OrderBook::placeBid`: symmetric. -/
def placeBid (price quantity : Int) (ob : OrderBook) : OrderBook :=
  { data := addBidOrder ⟨strBID, price, quantity, ob.orderID + 1⟩ ob.data,
    orderID := ob.orderID + 1 }

/-- `OrderBook::matchBidAsk`, returning the new engine state and the
emitted trade records. -/
def matchBidAsk (ob : OrderBook) : OrderBook × List Trade :=
  let r := matchLoop ob.data.bestAsk ob.data.bestBid
  ({ ob with data := { bestAsk := r.1, bestBid := r.2.1 } }, r.2.2)

/-- `OrderBook::marketBuy`. -/
def marketBuy (quantity : Int) (ob : OrderBook) : OrderBook :=
  { ob with data := { ob.data with bestAsk := marketBuyLoop quantity ob.data.bestAsk } }

/-- `OrderBook::marketSell`. -/
def marketSell (quantity : Int) (ob : OrderBook) : OrderBook :=
  { ob with data := { ob.data with bestBid := marketSellLoop quantity ob.data.bestBid } }

/-- The public engine operations, for reasoning about call sequences. -/
inductive Op
  | placeAsk (price quantity : Int)
  | placeBid (price quantity : Int)
  | matchBook
  | marketBuy (quantity : Int)
  | marketSell (quantity : Int)
deriving DecidableEq

/-- A run of the engine: the current `OrderBook` plus the log of every
trade record `matchBidAsk` has ever emitted. -/
structure SimState where
  book : OrderBook
  trades : List Trade
deriving DecidableEq

/-- Execute one public operation. -/
def stepOp (s : SimState) : Op → SimState
  | Op.placeAsk p q => { s with book := placeAsk p q s.book }
  | Op.placeBid p q => { s with book := placeBid p q s.book }
  | Op.matchBook =>
    let r := matchBidAsk s.book
    { book := r.1, trades := s.trades ++ r.2 }
  | Op.marketBuy q => { s with book := marketBuy q s.book }
  | Op.marketSell q => { s with book := marketSell q s.book }

/-- The engine started on an empty book (counter 0, no orders). -/
def initState : SimState :=
  { book := mkOrderBook ⟨[], []⟩, trades := [] }

/-- Run a sequence of public operations from the empty book. -/
def runOps (ops : List Op) : SimState :=
  ops.foldl stepOp initState

/-- Sum of the resting quantities of a heap-modelling list. -/
def qtySum (l : List Order) : Int :=
  (l.map (fun o => o.quantity)).sum

/-- Sum of the quantities of a list of trade records. -/
def tradeQtySum (ts : List Trade) : Int :=
  (ts.map (fun t => t.quantity)).sum

/-- Sum of the quantities placed by the limit orders of an operation
sequence. -/
def placedQtySum (ops : List Op) : Int :=
  (ops.map (fun op =>
    match op with
    | Op.placeAsk _ q => q
    | Op.placeBid _ q => q
    | _ => 0)).sum

/-- The no-cross condition on a pair of heaps: one side is empty, or the
best (minimum-price) ask's price strictly exceeds the best
(maximum-price) bid's price. -/
def noCrossB (ask bid : List Order) : Bool :=
  match minPriceSelect ask, maxPriceSelect bid with
  | some (a, _), some (b, _) => decide (b.price < a.price)
  | _, _ => true

/-- Unfolding of `matchLoop` in the stop case: book is non-empty on both
sides but the best ask's price exceeds the best bid's price. -/
theorem matchLoop_eq_stop {ask bid : List Order} {a b : Order}
    {ask' bid' : List Order}
    (hA : minPriceSelect ask = some (a, ask'))
    (hB : maxPriceSelect bid = some (b, bid'))
    (hlt : b.price < a.price) : matchLoop ask bid = (ask, bid, []) := by
  rw [matchLoop.eq_def]
  split
  · rename_i a2 ask2 b2 bid2 hA2 hB2
    rw [hA2] at hA
    rw [hB2] at hB
    simp only [Option.some.injEq, Prod.mk.injEq] at hA hB
    rw [if_pos (by rw [hA.1, hB.1]; exact hlt)]
  · rfl

/-- Unfolding of `matchLoop` in the trade case. -/
theorem matchLoop_eq_trade {ask bid : List Order} {a b : Order}
    {ask' bid' : List Order}
    (hA : minPriceSelect ask = some (a, ask'))
    (hB : maxPriceSelect bid = some (b, bid'))
    (hge : ¬ b.price < a.price) :
    matchLoop ask bid =
      (let m := min a.quantity b.quantity
       let newAsk := if 0 < a.quantity - m
         then ({ a with quantity := a.quantity - m } : Order) :: ask' else ask'
       let newBid := if 0 < b.quantity - m
         then ({ b with quantity := b.quantity - m } : Order) :: bid' else bid'
       let r := matchLoop newAsk newBid
       (r.1, r.2.1, (⟨a.orderID, b.orderID, min a.quantity b.quantity, a.price⟩ : Trade) :: r.2.2)) := by
  rw [matchLoop.eq_def]
  split
  · rename_i a2 ask2 b2 bid2 hA2 hB2
    rw [hA2] at hA
    rw [hB2] at hB
    simp only [Option.some.injEq, Prod.mk.injEq] at hA hB
    obtain ⟨ha1, ha2⟩ := hA
    obtain ⟨hb1, hb2⟩ := hB
    subst ha1 ha2 hb1 hb2
    rw [if_neg hge]
  · rename_i hnone
    exact (hnone a ask' b bid' hA hB).elim

/-- Unfolding of `matchLoop` when a side is empty. -/
theorem matchLoop_eq_empty {ask bid : List Order}
    (h : minPriceSelect ask = none ∨ maxPriceSelect bid = none) :
    matchLoop ask bid = (ask, bid, []) := by
  rw [matchLoop.eq_def]
  split
  · rename_i a2 ask2 b2 bid2 hA2 hB2
    rcases h with h | h
    · rw [hA2] at h; exact absurd h (by simp)
    · rw [hB2] at h; exact absurd h (by simp)
  · rfl

/-- Quantity sums are invariant under permutation. -/
theorem qtySum_perm {l l' : List Order} (h : List.Perm l l') :
    qtySum l = qtySum l' := by
  unfold qtySum
  exact List.Perm.sum_eq (h.map (fun o => o.quantity))

theorem qtySum_cons (o : Order) (l : List Order) :
    qtySum (o :: l) = o.quantity + qtySum l := by
  simp [qtySum]

/-- The multiset of order IDs of a heap-modelling list. -/
def idMS (l : List Order) : Multiset Int :=
  (l.map (fun o => o.orderID) : List Int)

theorem idMS_perm {l l' : List Order} (h : List.Perm l l') :
    idMS l = idMS l' :=
  Multiset.coe_eq_coe.mpr (h.map (fun o => o.orderID))

theorem idMS_cons (o : Order) (l : List Order) :
    idMS (o :: l) = o.orderID ::ₘ idMS l := rfl

/-- After `matchLoop` returns, either side is empty or the best ask's
price strictly exceeds the best bid's price. -/
theorem matchLoop_noCross (ask bid : List Order) :
    noCrossB (matchLoop ask bid).1 (matchLoop ask bid).2.1 = true := by
  induction ask, bid using matchLoop.induct with
  | case1 ask bid a ask' b bid' hA hB hlt =>
    rw [matchLoop_eq_stop hA hB hlt]
    simp only [noCrossB, hA, hB]
    exact decide_eq_true hlt
  | case2 ask bid a ask' b bid' hA hB hlt m a' b' newAsk newBid ih =>
    rw [matchLoop_eq_trade hA hB hlt]
    exact ih
  | case3 ask bid hnone =>
    have h : minPriceSelect ask = none ∨ maxPriceSelect bid = none := by
      cases h1 : minPriceSelect ask with
      | none => exact Or.inl rfl
      | some p =>
        cases h2 : maxPriceSelect bid with
        | none => exact Or.inr rfl
        | some p2 =>
          exact (hnone p.1 p.2 p2.1 p2.2 (by simp [h1]) (by simp [h2])).elim
    rw [matchLoop_eq_empty h]
    simp only [noCrossB]

/-- Each trade of quantity `m` removes `m` from the Ask side and `m`
from the Bid side: resting quantity plus twice the traded quantity is
invariant across `matchLoop`. -/
theorem matchLoop_qtySum (ask bid : List Order) :
    qtySum (matchLoop ask bid).1 + qtySum (matchLoop ask bid).2.1 +
      2 * tradeQtySum (matchLoop ask bid).2.2 = qtySum ask + qtySum bid := by
  induction ask, bid using matchLoop.induct with
  | case1 ask bid a ask' b bid' hA hB hlt =>
    rw [matchLoop_eq_stop hA hB hlt]
    simp [tradeQtySum]
  | case2 ask bid a ask' b bid' hA hB hlt m a' b' newAsk newBid ih =>
    rw [matchLoop_eq_trade hA hB hlt]
    simp only []
    have hsa : qtySum ask = a.quantity + qtySum ask' :=
      (qtySum_perm (selectBest_perm hA)).trans (qtySum_cons a ask')
    have hsb : qtySum bid = b.quantity + qtySum bid' :=
      (qtySum_perm (selectBest_perm hB)).trans (qtySum_cons b bid')
    have hna : qtySum (if 0 < a.quantity - min a.quantity b.quantity
        then ({ a with quantity := a.quantity - min a.quantity b.quantity } : Order) :: ask'
        else ask') = qtySum ask' + (a.quantity - min a.quantity b.quantity) := by
      split_ifs with hpos
      · rw [qtySum_cons]; ring
      · have : a.quantity - min a.quantity b.quantity = 0 := by
          rcases le_total a.quantity b.quantity with hle | hle
          · rw [min_eq_left hle]; omega
          · rw [min_eq_right hle] at hpos ⊢; omega
        omega
    have hnb : qtySum (if 0 < b.quantity - min a.quantity b.quantity
        then ({ b with quantity := b.quantity - min a.quantity b.quantity } : Order) :: bid'
        else bid') = qtySum bid' + (b.quantity - min a.quantity b.quantity) := by
      split_ifs with hpos
      · rw [qtySum_cons]; ring
      · have : b.quantity - min a.quantity b.quantity = 0 := by
          rcases le_total a.quantity b.quantity with hle | hle
          · rw [min_eq_left hle] at hpos ⊢; omega
          · rw [min_eq_right hle]; omega
        omega
    simp only [newAsk, newBid, a', b', m, dite_eq_ite] at ih
    rw [hna, hnb] at ih
    simp only [tradeQtySum, List.map_cons, List.sum_cons] at ih ⊢
    have hmin : min a.quantity b.quantity ≤ a.quantity ∧
        min a.quantity b.quantity ≤ b.quantity := ⟨min_le_left _ _, min_le_right _ _⟩
    omega
  | case3 ask bid hnone =>
    have h : minPriceSelect ask = none ∨ maxPriceSelect bid = none := by
      cases h1 : minPriceSelect ask with
      | none => exact Or.inl rfl
      | some p =>
        cases h2 : maxPriceSelect bid with
        | none => exact Or.inr rfl
        | some p2 =>
          exact (hnone p.1 p.2 p2.1 p2.2 (by simp [h1]) (by simp [h2])).elim
    rw [matchLoop_eq_empty h]
    simp [tradeQtySum]

/-- Each `matchLoop` iteration removes at least one order from the book:
the number of emitted trades plus the number of surviving orders is
bounded by the number of orders initially resting. -/
theorem matchLoop_steps (ask bid : List Order) :
    (matchLoop ask bid).2.2.length + (matchLoop ask bid).1.length +
      (matchLoop ask bid).2.1.length ≤ ask.length + bid.length := by
  induction ask, bid using matchLoop.induct with
  | case1 ask bid a ask' b bid' hA hB hlt =>
    rw [matchLoop_eq_stop hA hB hlt]
    simp
  | case2 ask bid a ask' b bid' hA hB hlt m a' b' newAsk newBid ih =>
    rw [matchLoop_eq_trade hA hB hlt]
    simp only [newAsk, newBid, a', b', m, dite_eq_ite] at ih
    simp only [List.length_cons]
    have hla : ask.length = ask'.length + 1 := selectBest_length hA
    have hlb : bid.length = bid'.length + 1 := selectBest_length hB
    have hone : a.quantity - min a.quantity b.quantity = 0 ∨
        b.quantity - min a.quantity b.quantity = 0 := by
      rcases le_total a.quantity b.quantity with hle | hle
      · left; rw [min_eq_left hle]; omega
      · right; rw [min_eq_right hle]; omega
    rcases hone with hz | hz
    · rw [hz] at ih ⊢
      rw [if_neg (by omega)] at ih ⊢
      split_ifs at ih ⊢ <;> simp_all [List.length_cons] <;> omega
    · rw [hz] at ih ⊢
      rw [if_neg (lt_irrefl 0)] at ih ⊢
      split_ifs at ih ⊢ <;> simp_all [List.length_cons] <;> omega
  | case3 ask bid hnone =>
    have h : minPriceSelect ask = none ∨ maxPriceSelect bid = none := by
      cases h1 : minPriceSelect ask with
      | none => exact Or.inl rfl
      | some p =>
        cases h2 : maxPriceSelect bid with
        | none => exact Or.inr rfl
        | some p2 =>
          exact (hnone p.1 p.2 p2.1 p2.2 (by simp [h1]) (by simp [h2])).elim
    rw [matchLoop_eq_empty h]
    simp

theorem marketBuyLoop_zero (ask : List Order) : marketBuyLoop 0 ask = ask := by
  rw [marketBuyLoop.eq_def]
  rw [if_pos rfl]

theorem marketBuyLoop_none {q : Int} {ask : List Order} (hq : q ≠ 0)
    (h : minPriceSelect ask = none) : marketBuyLoop q ask = ask := by
  rw [marketBuyLoop.eq_def, if_neg hq]
  split
  · rfl
  · rename_i a2 ask2 h2
    rw [h2] at h
    exact absurd h (by simp)

theorem marketBuyLoop_step {q : Int} {ask ask' : List Order} {a : Order}
    (hq : q ≠ 0) (h : minPriceSelect ask = some (a, ask')) :
    marketBuyLoop q ask =
      marketBuyLoop (q - min q a.quantity)
        (if 0 < a.quantity - min q a.quantity
          then ({ a with quantity := a.quantity - min q a.quantity } : Order) :: ask'
          else ask') := by
  rw [marketBuyLoop.eq_def, if_neg hq]
  split
  · rename_i h2
    rw [h2] at h
    exact absurd h (by simp)
  · rename_i a2 ask2 h2
    rw [h2] at h
    simp only [Option.some.injEq, Prod.mk.injEq] at h
    obtain ⟨h1, h3⟩ := h
    subst h1 h3
    rfl

theorem marketSellLoop_zero (bid : List Order) : marketSellLoop 0 bid = bid := by
  rw [marketSellLoop.eq_def]
  rw [if_pos rfl]

theorem marketSellLoop_none {q : Int} {bid : List Order} (hq : q ≠ 0)
    (h : maxPriceSelect bid = none) : marketSellLoop q bid = bid := by
  rw [marketSellLoop.eq_def, if_neg hq]
  split
  · rfl
  · rename_i b2 bid2 h2
    rw [h2] at h
    exact absurd h (by simp)

theorem marketSellLoop_step {q : Int} {bid bid' : List Order} {b : Order}
    (hq : q ≠ 0) (h : maxPriceSelect bid = some (b, bid')) :
    marketSellLoop q bid =
      marketSellLoop (q - min q b.quantity)
        (if 0 < b.quantity - min q b.quantity
          then ({ b with quantity := b.quantity - min q b.quantity } : Order) :: bid'
          else bid') := by
  rw [marketSellLoop.eq_def, if_neg hq]
  split
  · rename_i h2
    rw [h2] at h
    exact absurd h (by simp)
  · rename_i b2 bid2 h2
    rw [h2] at h
    simp only [Option.some.injEq, Prod.mk.injEq] at h
    obtain ⟨h1, h3⟩ := h
    subst h1 h3
    rfl

theorem qtySum_nonneg {l : List Order} (h : ∀ o ∈ l, 0 < o.quantity) :
    0 ≤ qtySum l := by
  induction l with
  | nil => simp [qtySum]
  | cons o rest ih =>
    rw [qtySum_cons]
    have h1 := h o (List.mem_cons_self o rest)
    have h2 := ih (fun x hx => h x (List.mem_cons_of_mem o hx))
    omega

/-- `marketBuy(Q)` with `Q ≥ 0` on a book of positive resting quantities
removes exactly `min(Q, total)` from the Ask side. -/
theorem marketBuyLoop_total (q : Int) (ask : List Order) :
    0 ≤ q → (∀ o ∈ ask, 0 < o.quantity) →
    qtySum (marketBuyLoop q ask) = qtySum ask - min q (qtySum ask) := by
  induction q, ask using marketBuyLoop.induct with
  | case1 ask =>
    intro _ hpos
    rw [marketBuyLoop_zero]
    have := qtySum_nonneg hpos
    omega
  | case2 q ask hq0 hA =>
    intro hq _
    rw [marketBuyLoop_none hq0 hA]
    rw [selectBest_eq_none hA]
    simp only [qtySum, List.map_nil, List.sum_nil]
    omega
  | case3 q ask hq0 a ask' hA m aq newAsk ih =>
    intro hq hpos
    rw [marketBuyLoop_step hq0 hA]
    simp only [newAsk, aq, m, dite_eq_ite] at ih
    have hsa : qtySum ask = a.quantity + qtySum ask' :=
      (qtySum_perm (selectBest_perm hA)).trans (qtySum_cons a ask')
    have hapos : 0 < a.quantity := hpos a (selectBest_mem hA)
    have hrest : ∀ o ∈ ask', 0 < o.quantity :=
      fun o ho => hpos o (selectBest_rest_subset hA o ho)
    have hq' : 0 ≤ q - min q a.quantity := by
      have := min_le_left q a.quantity
      omega
    have hpos' : ∀ o ∈ (if 0 < a.quantity - min q a.quantity
        then ({ a with quantity := a.quantity - min q a.quantity } : Order) :: ask'
        else ask'), 0 < o.quantity := by
      split_ifs with hif
      · intro o ho
        rcases List.mem_cons.mp ho with ho | ho
        · rw [ho]; exact hif
        · exact hrest o ho
      · exact hrest
    have hna : qtySum (if 0 < a.quantity - min q a.quantity
        then ({ a with quantity := a.quantity - min q a.quantity } : Order) :: ask'
        else ask') = qtySum ask - min q a.quantity := by
      split_ifs with hif
      · rw [qtySum_cons]; simp only []; omega
      · have hmle : min q a.quantity ≤ a.quantity := min_le_right _ _
        have : a.quantity - min q a.quantity = 0 := by
          rcases le_total q a.quantity with hle | hle
          · rw [min_eq_left hle] at hif ⊢
            omega
          · rw [min_eq_right hle]; omega
        omega
    rw [ih hq' hpos', hna]
    have hSpos : 0 ≤ qtySum ask' := qtySum_nonneg hrest
    have hm1 : min q a.quantity ≤ q := min_le_left _ _
    have hm2 : min q a.quantity ≤ a.quantity := min_le_right _ _
    rw [min_sub_sub_right]
    have hminle : min q (qtySum ask) ≤ qtySum ask := min_le_right _ _
    omega

/-- Every order resting after a market-buy sweep has the price and ID of
an order that was resting before it. -/
theorem marketBuyLoop_src (q : Int) (ask : List Order) :
    ∀ o ∈ marketBuyLoop q ask, ∃ o2 ∈ ask,
      o.price = o2.price ∧ o.orderID = o2.orderID := by
  induction q, ask using marketBuyLoop.induct with
  | case1 ask =>
    rw [marketBuyLoop_zero]
    exact fun o ho => ⟨o, ho, rfl, rfl⟩
  | case2 q ask hq0 hA =>
    rw [marketBuyLoop_none hq0 hA]
    exact fun o ho => ⟨o, ho, rfl, rfl⟩
  | case3 q ask hq0 a ask' hA m aq newAsk ih =>
    rw [marketBuyLoop_step hq0 hA]
    simp only [newAsk, aq, m, dite_eq_ite] at ih
    intro o ho
    obtain ⟨o2, ho2, hp, hi⟩ := ih o ho
    by_cases hif : 0 < a.quantity - min q a.quantity
    · rw [if_pos hif] at ho2
      rcases List.mem_cons.mp ho2 with h2 | h2
      · subst h2
        exact ⟨a, selectBest_mem hA, hp, hi⟩
      · exact ⟨o2, selectBest_rest_subset hA o2 h2, hp, hi⟩
    · rw [if_neg hif] at ho2
      exact ⟨o2, selectBest_rest_subset hA o2 ho2, hp, hi⟩

/-- A market-buy sweep never invents or mutates order IDs. -/
theorem marketBuyLoop_ids (q : Int) (ask : List Order) :
    idMS (marketBuyLoop q ask) ≤ idMS ask := by
  induction q, ask using marketBuyLoop.induct with
  | case1 ask => rw [marketBuyLoop_zero]
  | case2 q ask hq0 hA => rw [marketBuyLoop_none hq0 hA]
  | case3 q ask hq0 a ask' hA m aq newAsk ih =>
    rw [marketBuyLoop_step hq0 hA]
    simp only [newAsk, aq, m, dite_eq_ite] at ih
    refine le_trans ih ?_
    have hia : idMS ask = a.orderID ::ₘ idMS ask' := by
      rw [idMS_perm (selectBest_perm hA), idMS_cons]
    rw [hia]
    split_ifs
    · rw [idMS_cons]
    · exact Multiset.le_cons_self _ _

/-- Every order resting after a market-sell sweep has the price and ID
of an order that was resting before it. -/
theorem marketSellLoop_src (q : Int) (bid : List Order) :
    ∀ o ∈ marketSellLoop q bid, ∃ o2 ∈ bid,
      o.price = o2.price ∧ o.orderID = o2.orderID := by
  induction q, bid using marketSellLoop.induct with
  | case1 bid =>
    rw [marketSellLoop_zero]
    exact fun o ho => ⟨o, ho, rfl, rfl⟩
  | case2 q bid hq0 hB =>
    rw [marketSellLoop_none hq0 hB]
    exact fun o ho => ⟨o, ho, rfl, rfl⟩
  | case3 q bid hq0 b bid' hB m bq newBid ih =>
    rw [marketSellLoop_step hq0 hB]
    simp only [newBid, bq, m, dite_eq_ite] at ih
    intro o ho
    obtain ⟨o2, ho2, hp, hi⟩ := ih o ho
    by_cases hif : 0 < b.quantity - min q b.quantity
    · rw [if_pos hif] at ho2
      rcases List.mem_cons.mp ho2 with h2 | h2
      · subst h2
        exact ⟨b, selectBest_mem hB, hp, hi⟩
      · exact ⟨o2, selectBest_rest_subset hB o2 h2, hp, hi⟩
    · rw [if_neg hif] at ho2
      exact ⟨o2, selectBest_rest_subset hB o2 ho2, hp, hi⟩

/-- A market-sell sweep never invents or mutates order IDs. -/
theorem marketSellLoop_ids (q : Int) (bid : List Order) :
    idMS (marketSellLoop q bid) ≤ idMS bid := by
  induction q, bid using marketSellLoop.induct with
  | case1 bid => rw [marketSellLoop_zero]
  | case2 q bid hq0 hB => rw [marketSellLoop_none hq0 hB]
  | case3 q bid hq0 b bid' hB m bq newBid ih =>
    rw [marketSellLoop_step hq0 hB]
    simp only [newBid, bq, m, dite_eq_ite] at ih
    refine le_trans ih ?_
    have hib : idMS bid = b.orderID ::ₘ idMS bid' := by
      rw [idMS_perm (selectBest_perm hB), idMS_cons]
    rw [hib]
    split_ifs
    · rw [idMS_cons]
    · exact Multiset.le_cons_self _ _

/-- Symmetric total-quantity lemma for `marketSell`. -/
theorem marketSellLoop_total (q : Int) (bid : List Order) :
    0 ≤ q → (∀ o ∈ bid, 0 < o.quantity) →
    qtySum (marketSellLoop q bid) = qtySum bid - min q (qtySum bid) := by
  induction q, bid using marketSellLoop.induct with
  | case1 bid =>
    intro _ hpos
    rw [marketSellLoop_zero]
    have := qtySum_nonneg hpos
    omega
  | case2 q bid hq0 hB =>
    intro hq _
    rw [marketSellLoop_none hq0 hB]
    rw [selectBest_eq_none hB]
    simp only [qtySum, List.map_nil, List.sum_nil]
    omega
  | case3 q bid hq0 b bid' hB m bq newBid ih =>
    intro hq hpos
    rw [marketSellLoop_step hq0 hB]
    simp only [newBid, bq, m, dite_eq_ite] at ih
    have hsb : qtySum bid = b.quantity + qtySum bid' :=
      (qtySum_perm (selectBest_perm hB)).trans (qtySum_cons b bid')
    have hbpos : 0 < b.quantity := hpos b (selectBest_mem hB)
    have hrest : ∀ o ∈ bid', 0 < o.quantity :=
      fun o ho => hpos o (selectBest_rest_subset hB o ho)
    have hq' : 0 ≤ q - min q b.quantity := by
      have := min_le_left q b.quantity
      omega
    have hpos' : ∀ o ∈ (if 0 < b.quantity - min q b.quantity
        then ({ b with quantity := b.quantity - min q b.quantity } : Order) :: bid'
        else bid'), 0 < o.quantity := by
      split_ifs with hif
      · intro o ho
        rcases List.mem_cons.mp ho with ho | ho
        · rw [ho]; exact hif
        · exact hrest o ho
      · exact hrest
    have hnb : qtySum (if 0 < b.quantity - min q b.quantity
        then ({ b with quantity := b.quantity - min q b.quantity } : Order) :: bid'
        else bid') = qtySum bid - min q b.quantity := by
      split_ifs with hif
      · rw [qtySum_cons]; simp only []; omega
      · have hmle : min q b.quantity ≤ b.quantity := min_le_right _ _
        have : b.quantity - min q b.quantity = 0 := by
          rcases le_total q b.quantity with hle | hle
          · rw [min_eq_left hle] at hif ⊢
            omega
          · rw [min_eq_right hle]; omega
        omega
    rw [ih hq' hpos', hnb]
    have hSpos : 0 ≤ qtySum bid' := qtySum_nonneg hrest
    have hm1 : min q b.quantity ≤ q := min_le_left _ _
    have hm2 : min q b.quantity ≤ b.quantity := min_le_right _ _
    rw [min_sub_sub_right]
    have hminle : min q (qtySum bid) ≤ qtySum bid := min_le_right _ _
    omega

theorem noCrossB_intro {ask bid : List Order}
    (h : ∀ a ra b rb, minPriceSelect ask = some (a, ra) →
      maxPriceSelect bid = some (b, rb) → b.price < a.price) :
    noCrossB ask bid = true := by
  unfold noCrossB
  cases h1 : minPriceSelect ask with
  | none => rfl
  | some p =>
    cases h2 : maxPriceSelect bid with
    | none => rfl
    | some p2 =>
      exact decide_eq_true (h p.1 p.2 p2.1 p2.2 (by simp [h1]) (by simp [h2]))

theorem noCrossB_elim {ask bid : List Order} {a b : Order}
    {ra rb : List Order} (h : noCrossB ask bid = true)
    (h1 : minPriceSelect ask = some (a, ra))
    (h2 : maxPriceSelect bid = some (b, rb)) : b.price < a.price := by
  unfold noCrossB at h
  rw [h1, h2] at h
  exact of_decide_eq_true h

/-- A market-buy sweep preserves the no-cross property: it only removes
Ask liquidity, so the surviving best ask can only have a higher or equal
price. -/
theorem marketBuy_noCross (q : Int) (ask bid : List Order)
    (h : noCrossB ask bid = true) :
    noCrossB (marketBuyLoop q ask) bid = true := by
  apply noCrossB_intro
  intro a1 ra b1 rb h1 h2
  have ha1 : a1 ∈ marketBuyLoop q ask := selectBest_mem h1
  obtain ⟨o2, ho2, hp, _⟩ := marketBuyLoop_src q ask a1 ha1
  have hne : ask ≠ [] := fun hempty => by rw [hempty] at ho2; exact absurd ho2 (by simp)
  obtain ⟨a0, ra0, h0⟩ := selectBest_isSome (k := fun o => o.price) hne
  have hle : a0.price ≤ o2.price := selectBest_min h0 o2 ho2
  have hlt : b1.price < a0.price := noCrossB_elim h h0 h2
  rw [hp]
  omega

/-- A market-sell sweep preserves the no-cross property. -/
theorem marketSell_noCross (q : Int) (ask bid : List Order)
    (h : noCrossB ask bid = true) :
    noCrossB ask (marketSellLoop q bid) = true := by
  apply noCrossB_intro
  intro a1 ra b1 rb h1 h2
  have hb1 : b1 ∈ marketSellLoop q bid := selectBest_mem h2
  obtain ⟨o2, ho2, hp, _⟩ := marketSellLoop_src q bid b1 hb1
  have hne : bid ≠ [] := fun hempty => by rw [hempty] at ho2; exact absurd ho2 (by simp)
  obtain ⟨b0, rb0, h0⟩ := selectBest_isSome (k := fun o => -o.price) hne
  have hle : -b0.price ≤ -o2.price := selectBest_min h0 o2 ho2
  have hlt : b0.price < a1.price := noCrossB_elim h h1 h0
  rw [hp]
  omega

/-- Whether an operation is a market order (these bypass the book-placement
path and are excluded by the conservation claim). -/
def Op.isMarket : Op → Bool
  | Op.marketBuy _ => true
  | Op.marketSell _ => true
  | _ => false

/-- Total resting quantity of both sides of the book of a run state. -/
def bookQty (s : SimState) : Int :=
  qtySum s.book.data.bestAsk + qtySum s.book.data.bestBid

theorem tradeQtySum_append (ts ts' : List Trade) :
    tradeQtySum (ts ++ ts') = tradeQtySum ts + tradeQtySum ts' := by
  simp [tradeQtySum]

/-- Quantity accounting across one non-market operation. -/
theorem stepOp_qty (s : SimState) (op : Op) (h : op.isMarket = false) :
    bookQty (stepOp s op) + 2 * tradeQtySum (stepOp s op).trades =
      bookQty s + 2 * tradeQtySum s.trades +
        (match op with
         | Op.placeAsk _ q => q
         | Op.placeBid _ q => q
         | _ => 0) := by
  cases op with
  | placeAsk p q =>
    simp only [stepOp, bookQty, placeAsk, addAskOrder]
    rw [qtySum_cons]
    ring
  | placeBid p q =>
    simp only [stepOp, bookQty, placeBid, addBidOrder]
    rw [qtySum_cons]
    ring
  | matchBook =>
    simp only [stepOp, bookQty, matchBidAsk]
    rw [tradeQtySum_append]
    have := matchLoop_qtySum s.book.data.bestAsk s.book.data.bestBid
    omega
  | marketBuy q => simp [Op.isMarket] at h
  | marketSell q => simp [Op.isMarket] at h

/-- Quantity conservation along a run: resting plus twice the traded
quantity equals the initial resting amount plus everything placed. -/
theorem foldl_qty (ops : List Op) :
    ∀ s : SimState, (∀ op ∈ ops, op.isMarket = false) →
    bookQty (ops.foldl stepOp s) + 2 * tradeQtySum (ops.foldl stepOp s).trades =
      bookQty s + 2 * tradeQtySum s.trades + placedQtySum ops := by
  induction ops with
  | nil => intro s _; simp [placedQtySum]
  | cons op rest ih =>
    intro s hops
    rw [List.foldl_cons]
    rw [ih (stepOp s op) (fun o ho => hops o (List.mem_cons_of_mem op ho))]
    rw [stepOp_qty s op (hops op (List.mem_cons_self op rest))]
    simp only [placedQtySum, List.map_cons, List.sum_cons]
    cases op <;> simp <;> ring

/-- Matching never invents or mutates order IDs: the multiset of IDs
resting after `matchLoop` is a sub-multiset of the IDs resting before. -/
theorem matchLoop_ids (ask bid : List Order) :
    idMS (matchLoop ask bid).1 + idMS (matchLoop ask bid).2.1 ≤
      idMS ask + idMS bid := by
  induction ask, bid using matchLoop.induct with
  | case1 ask bid a ask' b bid' hA hB hlt =>
    rw [matchLoop_eq_stop hA hB hlt]
  | case2 ask bid a ask' b bid' hA hB hlt m a' b' newAsk newBid ih =>
    rw [matchLoop_eq_trade hA hB hlt]
    simp only [newAsk, newBid, a', b', m, dite_eq_ite] at ih
    refine le_trans ih ?_
    have hia : idMS ask = a.orderID ::ₘ idMS ask' := by
      rw [idMS_perm (selectBest_perm hA), idMS_cons]
    have hib : idMS bid = b.orderID ::ₘ idMS bid' := by
      rw [idMS_perm (selectBest_perm hB), idMS_cons]
    have hna : idMS (if 0 < a.quantity - min a.quantity b.quantity
        then ({ a with quantity := a.quantity - min a.quantity b.quantity } : Order) :: ask'
        else ask') ≤ a.orderID ::ₘ idMS ask' := by
      split_ifs
      · rw [idMS_cons]
      · exact Multiset.le_cons_self _ _
    have hnb : idMS (if 0 < b.quantity - min a.quantity b.quantity
        then ({ b with quantity := b.quantity - min a.quantity b.quantity } : Order) :: bid'
        else bid') ≤ b.orderID ::ₘ idMS bid' := by
      split_ifs
      · rw [idMS_cons]
      · exact Multiset.le_cons_self _ _
    rw [hia, hib]
    exact add_le_add hna hnb
  | case3 ask bid hnone =>
    have h : minPriceSelect ask = none ∨ maxPriceSelect bid = none := by
      cases h1 : minPriceSelect ask with
      | none => exact Or.inl rfl
      | some p =>
        cases h2 : maxPriceSelect bid with
        | none => exact Or.inr rfl
        | some p2 =>
          exact (hnone p.1 p.2 p2.1 p2.2 (by simp [h1]) (by simp [h2])).elim
    rw [matchLoop_eq_empty h]

/-- The multiset of all order IDs resting in the book of a run state. -/
def bookIdMS (s : SimState) : Multiset Int :=
  idMS s.book.data.bestAsk + idMS s.book.data.bestBid

/-- The ID bookkeeping invariant of an engine started on an empty book:
the counter is non-negative and the resting IDs are pairwise distinct,
positive, and bounded by the counter. -/
def IdInv (s : SimState) : Prop :=
  0 ≤ s.book.orderID ∧ (bookIdMS s).Nodup ∧
    ∀ i ∈ bookIdMS s, 0 < i ∧ i ≤ s.book.orderID

theorem stepOp_idInv (s : SimState) (op : Op) (h : IdInv s) :
    IdInv (stepOp s op) := by
  obtain ⟨hc, hnd, hbound⟩ := h
  cases op with
  | placeAsk p q =>
    have hids : bookIdMS (stepOp s (Op.placeAsk p q)) =
        (s.book.orderID + 1) ::ₘ bookIdMS s := by
      simp only [stepOp, bookIdMS, placeAsk, addAskOrder, idMS_cons,
        Multiset.cons_add]
    refine ⟨by simp only [stepOp, placeAsk]; omega, ?_, ?_⟩
    · rw [hids]
      refine Multiset.nodup_cons.mpr ⟨?_, hnd⟩
      intro hmem
      have := (hbound _ hmem).2
      omega
    · intro i hi
      rw [hids, Multiset.mem_cons] at hi
      simp only [stepOp, placeAsk]
      rcases hi with hi | hi
      · omega
      · have := hbound i hi
        omega
  | placeBid p q =>
    have hids : bookIdMS (stepOp s (Op.placeBid p q)) =
        (s.book.orderID + 1) ::ₘ bookIdMS s := by
      simp only [stepOp, bookIdMS, placeBid, addBidOrder, idMS_cons]
      rw [Multiset.add_cons]
    refine ⟨by simp only [stepOp, placeBid]; omega, ?_, ?_⟩
    · rw [hids]
      refine Multiset.nodup_cons.mpr ⟨?_, hnd⟩
      intro hmem
      have := (hbound _ hmem).2
      omega
    · intro i hi
      rw [hids, Multiset.mem_cons] at hi
      simp only [stepOp, placeBid]
      rcases hi with hi | hi
      · omega
      · have := hbound i hi
        omega
  | matchBook =>
    have hle : bookIdMS (stepOp s Op.matchBook) ≤ bookIdMS s := by
      simp only [stepOp, bookIdMS, matchBidAsk]
      exact matchLoop_ids s.book.data.bestAsk s.book.data.bestBid
    refine ⟨hc, Multiset.nodup_of_le hle hnd, ?_⟩
    intro i hi
    have := hbound i (Multiset.mem_of_le hle hi)
    simpa only [stepOp, matchBidAsk] using this
  | marketBuy q =>
    have hle : bookIdMS (stepOp s (Op.marketBuy q)) ≤ bookIdMS s := by
      simp only [stepOp, bookIdMS, marketBuy]
      exact add_le_add (marketBuyLoop_ids q s.book.data.bestAsk) le_rfl
    refine ⟨hc, Multiset.nodup_of_le hle hnd, ?_⟩
    intro i hi
    have := hbound i (Multiset.mem_of_le hle hi)
    simpa only [stepOp, marketBuy] using this
  | marketSell q =>
    have hle : bookIdMS (stepOp s (Op.marketSell q)) ≤ bookIdMS s := by
      simp only [stepOp, bookIdMS, marketSell]
      exact add_le_add le_rfl (marketSellLoop_ids q s.book.data.bestBid)
    refine ⟨hc, Multiset.nodup_of_le hle hnd, ?_⟩
    intro i hi
    have := hbound i (Multiset.mem_of_le hle hi)
    simpa only [stepOp, marketSell] using this

theorem runOps_idInv (ops : List Op) : IdInv (runOps ops) := by
  have hinit : IdInv initState := by
    refine ⟨le_refl 0, ?_, ?_⟩
    · simp [bookIdMS, idMS, initState, mkOrderBook]
    · intro i hi
      simp [bookIdMS, idMS, initState, mkOrderBook] at hi
  unfold runOps
  induction ops using List.reverseRecOn with
  | nil => exact hinit
  | append_singleton rest op ih =>
    rw [List.foldl_append, List.foldl_cons, List.foldl_nil]
    exact stepOp_idInv _ op ih

/-- C1: For every book state, after `matchBook` (`matchBidAsk`) returns,
either the Ask side is empty, or the Bid side is empty, or the price of
the best (minimum-price) Ask order is strictly greater than the price of
the best (maximum-price) Bid order. -/
theorem C1_matchBook_noCross (ask bid : List Order) :
    (matchLoop ask bid).1 = [] ∨ (matchLoop ask bid).2.1 = [] ∨
      (∃ a ra b rb, minPriceSelect (matchLoop ask bid).1 = some (a, ra) ∧
        maxPriceSelect (matchLoop ask bid).2.1 = some (b, rb) ∧
        b.price < a.price) := by
  by_cases hA : (matchLoop ask bid).1 = []
  · exact Or.inl hA
  by_cases hB : (matchLoop ask bid).2.1 = []
  · exact Or.inr (Or.inl hB)
  refine Or.inr (Or.inr ?_)
  obtain ⟨a, ra, h1⟩ := selectBest_isSome (k := fun o => o.price) hA
  obtain ⟨b, rb, h2⟩ := selectBest_isSome (k := fun o => -o.price) hB
  exact ⟨a, ra, b, rb, h1, h2, noCrossB_elim (matchLoop_noCross ask bid) h1 h2⟩

/-- C2: Each iteration of `matchBook`, when neither side is empty and
`bestAsk.price ≤ bestBid.price`, executes a trade of quantity
`min(askQuantity, bidQuantity)` at the ask order's price, decrements
both best orders' quantities by that amount, removes both from their
sides (the rest lists are the sides minus the best orders), and
re-inserts each order if and only if its residual quantity is positive;
when either side is empty or `bestAsk.price > bestBid.price` the loop
stops with no trade. -/
theorem C2_matchBook_iteration :
    (∀ (ask bid : List Order) (a b : Order) (ask' bid' : List Order),
      minPriceSelect ask = some (a, ask') →
      maxPriceSelect bid = some (b, bid') →
      a.price ≤ b.price →
      List.Perm ask (a :: ask') ∧ List.Perm bid (b :: bid') ∧
      matchLoop ask bid =
        ((matchLoop
            (if 0 < a.quantity - min a.quantity b.quantity
              then ({ a with quantity := a.quantity - min a.quantity b.quantity } : Order) :: ask'
              else ask')
            (if 0 < b.quantity - min a.quantity b.quantity
              then ({ b with quantity := b.quantity - min a.quantity b.quantity } : Order) :: bid'
              else bid')).1,
         (matchLoop
            (if 0 < a.quantity - min a.quantity b.quantity
              then ({ a with quantity := a.quantity - min a.quantity b.quantity } : Order) :: ask'
              else ask')
            (if 0 < b.quantity - min a.quantity b.quantity
              then ({ b with quantity := b.quantity - min a.quantity b.quantity } : Order) :: bid'
              else bid')).2.1,
         (⟨a.orderID, b.orderID, min a.quantity b.quantity, a.price⟩ : Trade) ::
           (matchLoop
            (if 0 < a.quantity - min a.quantity b.quantity
              then ({ a with quantity := a.quantity - min a.quantity b.quantity } : Order) :: ask'
              else ask')
            (if 0 < b.quantity - min a.quantity b.quantity
              then ({ b with quantity := b.quantity - min a.quantity b.quantity } : Order) :: bid'
              else bid')).2.2)) ∧
    (∀ (ask bid : List Order) (a b : Order) (ask' bid' : List Order),
      minPriceSelect ask = some (a, ask') →
      maxPriceSelect bid = some (b, bid') →
      b.price < a.price → matchLoop ask bid = (ask, bid, [])) ∧
    (∀ ask bid : List Order,
      minPriceSelect ask = none ∨ maxPriceSelect bid = none →
      matchLoop ask bid = (ask, bid, [])) := by
  refine ⟨?_, ?_, ?_⟩
  · intro ask bid a b ask' bid' hA hB hle
    exact ⟨selectBest_perm hA, selectBest_perm hB,
      matchLoop_eq_trade hA hB (not_lt.mpr hle)⟩
  · intro ask bid a b ask' bid' hA hB hlt
    exact matchLoop_eq_stop hA hB hlt
  · intro ask bid h
    exact matchLoop_eq_empty h

/-- The concrete resting ask used by the C2 witness. -/
def c2a : Order := Order.mk strASK 100 10 1

/-- The concrete resting bid used by the C2 witness. -/
def c2b : Order := Order.mk strBID 101 8 3

/-- Witness for C2 at a concrete crossing book: one resting ask
(price 100, quantity 10, id 1) and one resting bid (price 101,
quantity 8, id 3). -/
theorem C2_matchBook_iteration_witness :
    List.Perm [c2a] (c2a :: []) ∧ List.Perm [c2b] (c2b :: []) ∧
    matchLoop [c2a] [c2b] =
      ((matchLoop
          (if 0 < c2a.quantity - min c2a.quantity c2b.quantity
            then ({ c2a with quantity := c2a.quantity - min c2a.quantity c2b.quantity } : Order) :: []
            else [])
          (if 0 < c2b.quantity - min c2a.quantity c2b.quantity
            then ({ c2b with quantity := c2b.quantity - min c2a.quantity c2b.quantity } : Order) :: []
            else [])).1,
       (matchLoop
          (if 0 < c2a.quantity - min c2a.quantity c2b.quantity
            then ({ c2a with quantity := c2a.quantity - min c2a.quantity c2b.quantity } : Order) :: []
            else [])
          (if 0 < c2b.quantity - min c2a.quantity c2b.quantity
            then ({ c2b with quantity := c2b.quantity - min c2a.quantity c2b.quantity } : Order) :: []
            else [])).2.1,
       (Trade.mk c2a.orderID c2b.orderID (min c2a.quantity c2b.quantity) c2a.price) ::
         (matchLoop
          (if 0 < c2a.quantity - min c2a.quantity c2b.quantity
            then ({ c2a with quantity := c2a.quantity - min c2a.quantity c2b.quantity } : Order) :: []
            else [])
          (if 0 < c2b.quantity - min c2a.quantity c2b.quantity
            then ({ c2b with quantity := c2b.quantity - min c2a.quantity c2b.quantity } : Order) :: []
            else [])).2.2) :=
  C2_matchBook_iteration.1 [c2a] [c2b] c2a c2b [] []
    (by decide) (by decide) (by decide)

/-- C3 counterexample: placing ask(100,10) and bid(100,10) and matching
executes one trade of quantity 10; the book empties, so resting (0) plus
the matched quantity (10) is 10, not the 20 that was placed.  The claim's
equation (counting each trade's quantity once) fails. -/
theorem C3_counterexample :
    ¬ (bookQty (runOps [Op.placeAsk 100 10, Op.placeBid 100 10, Op.matchBook]) +
        tradeQtySum (runOps [Op.placeAsk 100 10, Op.placeBid 100 10, Op.matchBook]).trades =
        placedQtySum [Op.placeAsk 100 10, Op.placeBid 100 10, Op.matchBook]) := by
  simp [runOps, stepOp, initState, mkOrderBook, placeAsk, placeBid, addAskOrder,
    addBidOrder, matchBidAsk, matchLoop, minPriceSelect, maxPriceSelect, selectBest,
    bookQty, qtySum, tradeQtySum, placedQtySum]

/-- C3 (amended): a trade of quantity `m` consumes `m` from the ask AND
`m` from the bid, so for every sequence of placements and matches from
the empty book, resting quantity plus TWICE the sum of all matched
quantities equals the total placed quantity. -/
theorem C3_quantity_conservation (ops : List Op)
    (h : ∀ op ∈ ops, op.isMarket = false) :
    bookQty (runOps ops) + 2 * tradeQtySum (runOps ops).trades =
      placedQtySum ops := by
  have hrun := foldl_qty ops initState h
  rw [runOps]
  rw [hrun]
  simp [bookQty, initState, mkOrderBook, qtySum, tradeQtySum]

/-- Witness for C3 on the counterexample's operation sequence. -/
theorem C3_quantity_conservation_witness :
    bookQty (runOps [Op.placeAsk 100 10, Op.placeBid 100 10, Op.matchBook]) +
      2 * tradeQtySum (runOps [Op.placeAsk 100 10, Op.placeBid 100 10, Op.matchBook]).trades =
      placedQtySum [Op.placeAsk 100 10, Op.placeBid 100 10, Op.matchBook] :=
  C3_quantity_conservation [Op.placeAsk 100 10, Op.placeBid 100 10, Op.matchBook]
    (by decide)

/-- C4 counterexample: `placeAsk(0, 0)` (non-positive price and
quantity) does not abort: the order is inserted and the book changes,
so no `InvalidOrderError` path exists. -/
theorem C4_counterexample :
    (placeAsk 0 0 (mkOrderBook (OrderBookData.mk [] []))).data ≠
      (mkOrderBook (OrderBookData.mk [] [])).data := by
  decide

/-- C4 (amended): `placeAsk` and `placeBid` perform no validation at
all: for every price and quantity, including non-positive ones, the
order is inserted into its side with the next counter value as its id,
the other side is untouched, and no error is raised. -/
theorem C4_no_validation (p q : Int) (ob : OrderBook) :
    (placeAsk p q ob).data.bestAsk =
        Order.mk strASK p q (ob.orderID + 1) :: ob.data.bestAsk ∧
    (placeAsk p q ob).data.bestBid = ob.data.bestBid ∧
    (placeAsk p q ob).orderID = ob.orderID + 1 ∧
    (placeBid p q ob).data.bestBid =
        Order.mk strBID p q (ob.orderID + 1) :: ob.data.bestBid ∧
    (placeBid p q ob).data.bestAsk = ob.data.bestAsk ∧
    (placeBid p q ob).orderID = ob.orderID + 1 :=
  ⟨rfl, rfl, rfl, rfl, rfl, rfl⟩

/-- C5 counterexample: `marketBuy(-1)` against an empty Ask side leaves
the book unchanged (reduction 0), but `min(-1, 0) = -1`, so the claimed
equation fails for negative requested quantities. -/
theorem C5_counterexample :
    ¬ (qtySum (mkOrderBook (OrderBookData.mk [] [])).data.bestAsk -
        qtySum (marketBuy (-1) (mkOrderBook (OrderBookData.mk [] []))).data.bestAsk =
        min (-1) (qtySum (mkOrderBook (OrderBookData.mk [] [])).data.bestAsk)) := by
  simp [marketBuy, marketBuyLoop, minPriceSelect, selectBest, mkOrderBook, qtySum]

/-- C5 (amended): for a non-negative requested quantity `Q` and a book
whose resting quantities are positive (as the data model requires),
`marketBuy(Q)` reduces the total Ask-side resting quantity by exactly
`min(Q, totalAskBefore)` and leaves the Bid side untouched;
`marketSell(Q)` is symmetric; and a market buy against an empty Ask
side returns normally with the book unchanged and raises no error. -/
theorem C5_market_sweep (q : Int) (ob : OrderBook) (hq : 0 ≤ q)
    (hposA : ∀ o ∈ ob.data.bestAsk, 0 < o.quantity)
    (hposB : ∀ o ∈ ob.data.bestBid, 0 < o.quantity) :
    qtySum ob.data.bestAsk - qtySum (marketBuy q ob).data.bestAsk =
        min q (qtySum ob.data.bestAsk) ∧
    (marketBuy q ob).data.bestBid = ob.data.bestBid ∧
    qtySum ob.data.bestBid - qtySum (marketSell q ob).data.bestBid =
        min q (qtySum ob.data.bestBid) ∧
    (marketSell q ob).data.bestAsk = ob.data.bestAsk ∧
    (ob.data.bestAsk = [] → marketBuy q ob = ob) := by
  refine ⟨?_, rfl, ?_, rfl, ?_⟩
  · have := marketBuyLoop_total q ob.data.bestAsk hq hposA
    simp only [marketBuy]
    omega
  · have := marketSellLoop_total q ob.data.bestBid hq hposB
    simp only [marketSell]
    omega
  · intro hempty
    have hloop : marketBuyLoop q ob.data.bestAsk = ob.data.bestAsk := by
      rw [hempty]
      by_cases hq0 : q = 0
      · rw [hq0, marketBuyLoop_zero]
      · exact marketBuyLoop_none hq0 rfl
    simp only [marketBuy, hloop]

/-- Witness for C5: a market buy of 6 against asks (100,2) and (101,5),
the book of the spec's Scenario B. -/
theorem C5_market_sweep_witness :
    qtySum (OrderBook.mk (OrderBookData.mk
        [Order.mk strASK 100 2 1, Order.mk strASK 101 5 2] []) 3).data.bestAsk -
      qtySum (marketBuy 6 (OrderBook.mk (OrderBookData.mk
        [Order.mk strASK 100 2 1, Order.mk strASK 101 5 2] []) 3)).data.bestAsk =
      min 6 (qtySum (OrderBook.mk (OrderBookData.mk
        [Order.mk strASK 100 2 1, Order.mk strASK 101 5 2] []) 3).data.bestAsk) :=
  (C5_market_sweep 6 (OrderBook.mk (OrderBookData.mk
      [Order.mk strASK 100 2 1, Order.mk strASK 101 5 2] []) 3)
    (by decide) (by decide) (by decide)).1

/-- C7 counterexample: placing a bid at 10 and then an ask at 5 leaves
the two operations' post-state crossed (best ask 5 ≤ best bid 10) with
both sides non-empty: a crossed configuration IS observable after
`placeAsk` returns, because placement does not run the matching loop. -/
theorem C7_counterexample :
    noCrossB (runOps [Op.placeBid 10 5, Op.placeAsk 5 5]).book.data.bestAsk
      (runOps [Op.placeBid 10 5, Op.placeAsk 5 5]).book.data.bestBid = false := by
  decide

/-- C7 (amended): `matchBook` establishes the no-cross property, and
`marketBuy`/`marketSell` preserve it, but `placeAsk`/`placeBid` do not:
a crossed book can be observed after a placement until the caller
invokes `matchBook`. -/
theorem C7_noCross_after_ops :
    (∀ ob : OrderBook,
      noCrossB (matchBidAsk ob).1.data.bestAsk (matchBidAsk ob).1.data.bestBid = true) ∧
    (∀ (q : Int) (ob : OrderBook),
      noCrossB ob.data.bestAsk ob.data.bestBid = true →
      noCrossB (marketBuy q ob).data.bestAsk (marketBuy q ob).data.bestBid = true) ∧
    (∀ (q : Int) (ob : OrderBook),
      noCrossB ob.data.bestAsk ob.data.bestBid = true →
      noCrossB (marketSell q ob).data.bestAsk (marketSell q ob).data.bestBid = true) := by
  refine ⟨?_, ?_, ?_⟩
  · intro ob
    exact matchLoop_noCross ob.data.bestAsk ob.data.bestBid
  · intro q ob h
    exact marketBuy_noCross q ob.data.bestAsk ob.data.bestBid h
  · intro q ob h
    exact marketSell_noCross q ob.data.bestAsk ob.data.bestBid h

/-- Witness for C7: a market buy of 1 against the non-crossed book with
one ask at 101 and one bid at 99. -/
theorem C7_noCross_after_ops_witness :
    noCrossB (marketBuy 1 (OrderBook.mk (OrderBookData.mk
        [Order.mk strASK 101 5 1] [Order.mk strBID 99 4 2]) 2)).data.bestAsk
      (marketBuy 1 (OrderBook.mk (OrderBookData.mk
        [Order.mk strASK 101 5 1] [Order.mk strBID 99 4 2]) 2)).data.bestBid = true :=
  C7_noCross_after_ops.2.1 1 (OrderBook.mk (OrderBookData.mk
    [Order.mk strASK 101 5 1] [Order.mk strBID 99 4 2]) 2) (by decide)

/-- C8 counterexample: the constructor leaves the id counter at 0 even
when the loaded snapshot already holds an order with id 1, so the next
`placeAsk` re-assigns id 1 and the book holds two orders with the same
id: a loaded id IS reused. -/
theorem C8_counterexample :
    ¬ (bookIdMS (SimState.mk
        (placeAsk 5 5 (mkOrderBook (OrderBookData.mk [] [Order.mk strBID 3 2 1])))
        [])).Nodup := by
  decide

/-- C8 (amended): within an engine instance started on an EMPTY book,
ids are unique and monotonically increasing: after any operation
sequence the resting ids are pairwise distinct, positive and bounded by
the counter, and the next placement assigns `counter + 1`, which no
resting order holds; matching never mutates or invents ids (the
resting id multiset only shrinks).  For an engine constructed from a
non-empty snapshot the claim fails, since the counter restarts at 0. -/
theorem C8_order_ids (ops : List Op) :
    (bookIdMS (runOps ops)).Nodup ∧
    (∀ i ∈ bookIdMS (runOps ops), 0 < i ∧ i ≤ (runOps ops).book.orderID) ∧
    (∀ p q : Int,
      (placeAsk p q (runOps ops).book).orderID = (runOps ops).book.orderID + 1 ∧
      (placeAsk p q (runOps ops).book).orderID ∉ bookIdMS (runOps ops)) ∧
    (∀ ask bid : List Order,
      idMS (matchLoop ask bid).1 + idMS (matchLoop ask bid).2.1 ≤
        idMS ask + idMS bid) := by
  obtain ⟨hc, hnd, hbound⟩ := runOps_idInv ops
  refine ⟨hnd, hbound, ?_, matchLoop_ids⟩
  intro p q
  refine ⟨rfl, ?_⟩
  intro hmem
  have := (hbound _ hmem).2
  simp only [placeAsk] at this ⊢
  omega

/-- Witness for C8 after placing one ask from the empty book: the single
resting id 1 is positive and bounded by the counter. -/
theorem C8_order_ids_witness :
    0 < (1 : Int) ∧ (1 : Int) ≤ (runOps [Op.placeAsk 7 2]).book.orderID :=
  (C8_order_ids [Op.placeAsk 7 2]).2.1 1 (by decide)

/-- C9: `matchBook` terminates on every book state: each iteration
removes at least one order, so the number of emitted trades plus the
number of surviving orders never exceeds the number of orders initially
resting (the loop runs at most `|ask| + |bid|` iterations). -/
theorem C9_matchBook_terminates (ask bid : List Order) :
    (matchLoop ask bid).2.2.length + (matchLoop ask bid).1.length +
      (matchLoop ask bid).2.1.length ≤ ask.length + bid.length :=
  matchLoop_steps ask bid

/-! ## Serialisation (`SerialisationService`)

`serialise` drains both heaps best-first and writes each order's
`toJSON` text, one per line, comma-separated, between `[` and `]`.
`deserialise` reads all lines, concatenates them (dropping the
newlines), repeatedly extracts the next `{...}` substring, splits it on
commas into `key:value` tokens, strips whitespace and double quotes,
and converts `price`, `quantity` and `orderID` with `std::stoi`
(modelled as an `Option`: `none` is the thrown conversion exception).
A record whose `type` is neither "ASK" nor "BID" is skipped. -/

/-- `::isspace` in the default locale. -/
def isSpaceC (c : Char) : Bool :=
  c == ' ' || c == '\t' || c == '\n' || c == '\x0b' || c == '\x0c' || c == '\r'

/-- ASCII decimal digit test, as `std::stoi` uses. -/
def isDigitC (c : Char) : Bool :=
  48 ≤ c.toNat && c.toNat ≤ 57

/-- The ASCII digit character of `n < 10`. -/
def digitChar (n : Nat) : Char := Char.ofNat (48 + n)

/-- Decimal digit string of a natural number, on fuel (structural so
that concrete snapshots evaluate by `decide`); `fuel > n` suffices. -/
def natToDigitsF : Nat → Nat → List Char
  | 0, _ => []
  | fuel + 1, n =>
    if n < 10 then [digitChar n]
    else natToDigitsF fuel (n / 10) ++ [digitChar (n % 10)]

/-- Decimal digit string of a natural number (`std::to_string`). -/
def natToDigits (n : Nat) : List Char := natToDigitsF (n + 1) n

/-- Decimal string of an integer (`std::to_string(int)`). -/
def intToChars (i : Int) : List Char :=
  if i < 0 then '-' :: natToDigits (-i).toNat else natToDigits i.toNat

/-- Value of a list of ASCII digits, most significant first. -/
def digitsToNat (ds : List Char) : Nat :=
  ds.foldl (fun acc c => 10 * acc + (c.toNat - 48)) 0

/-- The digit-prefix conversion inside `std::stoi`: value of the longest
leading run of digits, or `none` (conversion failure) if there is none. -/
def digitsVal (cs : List Char) : Option Nat :=
  let ds := cs.takeWhile isDigitC
  if ds = [] then none else some (digitsToNat ds)

/-- `std::stoi`: skip leading whitespace, optional sign, digits.
`none` models the `std::invalid_argument` exception.  (The `int` range
check is not modelled; no claim depends on it.) -/
def stoi (cs : List Char) : Option Int :=
  match cs.dropWhile isSpaceC with
  | [] => none
  | c :: rest =>
    if c = '-' then (digitsVal rest).map (fun n => -(Int.ofNat n))
    else if c = '+' then (digitsVal rest).map Int.ofNat
    else (digitsVal (c :: rest)).map Int.ofNat

/-- The double-quote character of the JSON text. -/
def quoteC : Char := '\"'

/-- The key "type". -/
def keyType : List Char := ['t', 'y', 'p', 'e']

/-- The key "price". -/
def keyPrice : List Char := ['p', 'r', 'i', 'c', 'e']

/-- The key "quantity". -/
def keyQuantity : List Char := ['q', 'u', 'a', 'n', 't', 'i', 't', 'y']

/-- The key "orderID". -/
def keyOrderID : List Char := ['o', 'r', 'd', 'e', 'r', 'I', 'D']

/-- The text between the braces of `Order::toJSON`:
`"type":"T","price":P,"quantity":Q,"orderID":I`. -/
def innerChars (o : Order) : List Char :=
  [quoteC] ++ keyType ++ [quoteC, ':', quoteC] ++ o.type ++ [quoteC, ','] ++
  [quoteC] ++ keyPrice ++ [quoteC, ':'] ++ intToChars o.price ++ [','] ++
  [quoteC] ++ keyQuantity ++ [quoteC, ':'] ++ intToChars o.quantity ++ [','] ++
  [quoteC] ++ keyOrderID ++ [quoteC, ':'] ++ intToChars o.orderID

/-- `Order::toJSON`. -/
def toJSONChars (o : Order) : List Char :=
  '{' :: innerChars o ++ ['}']

/-- Comma-separated concatenation, as `serialise` writes between
records. -/
def joinComma : List (List Char) → List Char
  | [] => []
  | [x] => x
  | x :: y :: t => x ++ ',' :: joinComma (y :: t)

/-- The snapshot file contents after `deserialise`'s line concatenation
(the newlines `serialise` writes disappear when `deserialise` rebuilds
the content with `getline`): `[` then the records comma-separated then
`]`. -/
def fileContent (orders : List Order) : List Char :=
  '[' :: joinComma (orders.map toJSONChars) ++ [']']

def drainMinF : Nat → List Order → List Order
  | 0, _ => []
  | fuel + 1, l =>
    match minPriceSelect l with
    | none => []
    | some (o, rest) => o :: drainMinF fuel rest

/-- Best-first drain of the Ask heap, as the `tempAsk` copy loop of
`serialise` pops it (on fuel `|l|`, which suffices: each pop removes
one order). -/
def drainMin (l : List Order) : List Order := drainMinF l.length l

def drainMaxF : Nat → List Order → List Order
  | 0, _ => []
  | fuel + 1, l =>
    match maxPriceSelect l with
    | none => []
    | some (o, rest) => o :: drainMaxF fuel rest

/-- Best-first drain of the Bid heap. -/
def drainMax (l : List Order) : List Order := drainMaxF l.length l

/-- `SerialisationService::serialise`: the file contents produced for a
book (asks first, then bids, each side best-first). -/
def serialiseContent (d : OrderBookData) : List Char :=
  fileContent (drainMin d.bestAsk ++ drainMax d.bestBid)

/-- The `{...}` extraction loop of `deserialise`: find the next `{`,
then the next `}` at or after it; the record is the text between them;
continue after the `}`.  If no `{` remains, stop; if a `{` has no
closing `}`, stop. -/
def extractObjectsF : Nat → List Char → List (List Char)
  | 0, _ => []
  | fuel + 1, cs =>
    match cs.dropWhile (fun c => !(c == '{')) with
    | [] => []
    | _ :: afterBrace =>
      let obj := afterBrace.takeWhile (fun c => !(c == '}'))
      match afterBrace.dropWhile (fun c => !(c == '}')) with
      | [] => []
      | _ :: afterClose => obj :: extractObjectsF fuel afterClose

def extractObjects (cs : List Char) : List (List Char) :=
  extractObjectsF cs.length cs

/-- The `getline(iss, token, ',')` splitting loop: tokens between
commas; a trailing comma yields no extra empty token (the final
`getline` fails on the exhausted stream). -/
def splitTokensF : Nat → List Char → List (List Char)
  | 0, _ => []
  | fuel + 1, cs =>
    if cs = [] then []
    else
      let tok := cs.takeWhile (fun c => !(c == ','))
      match cs.dropWhile (fun c => !(c == ',')) with
      | [] => [tok]
      | _ :: rest => tok :: splitTokensF fuel rest

def splitTokens (cs : List Char) : List (List Char) :=
  splitTokensF cs.length cs

/-- Erase whitespace (`remove_if(..., ::isspace)`) and then double
quotes (`remove(..., '\"')`), as `deserialise` cleans keys and values. -/
def cleanChars (cs : List Char) : List Char :=
  (cs.filter (fun c => !(isSpaceC c))).filter (fun c => !(c == quoteC))

/-- Split one token into its cleaned key (before the first `:`) and
value (after it; empty when the token has no `:`). -/
def parsePair (tok : List Char) : List Char × List Char :=
  let key := tok.takeWhile (fun c => !(c == ':'))
  let value := match tok.dropWhile (fun c => !(c == ':')) with
    | [] => []
    | _ :: r => r
  (cleanChars key, cleanChars value)

/-- The `attributeMap` of one record. -/
def objFields (inner : List Char) : List (List Char × List Char) :=
  (splitTokens inner).map parsePair

/-- `std::map` lookup with `operator[]` semantics: the last binding for
the key wins (later inserts overwrite), a missing key reads as "". -/
def mapLookup (k : List Char) (ps : List (List Char × List Char)) : List Char :=
  (ps.foldl (fun acc p => if p.1 = k then some p.2 else acc)
    (none : Option (List Char))).getD []

/-- The per-record loop of `deserialise`: parse each record's fields,
convert the three integer fields (`none` models the exception thrown by
`stoi` aborting the whole load), build the `Order`, and add it to the
Ask heap if its type is "ASK", to the Bid heap if "BID", and nowhere
otherwise. -/
def deserialiseObjs : List (List Char) → OrderBookData → Option OrderBookData
  | [], d => some d
  | inner :: rest, d =>
    let fields := objFields inner
    let ty := mapLookup keyType fields
    match stoi (mapLookup keyPrice fields), stoi (mapLookup keyQuantity fields),
        stoi (mapLookup keyOrderID fields) with
    | some p, some q, some i =>
      let o : Order := Order.mk ty p q i
      deserialiseObjs rest
        (if ty = strASK then addAskOrder o d
         else if ty = strBID then addBidOrder o d else d)
    | _, _, _ => none

/-- `SerialisationService::deserialise` on given file contents, adding
the parsed orders to the given book. -/
def deserialiseContent (cs : List Char) (d : OrderBookData) : Option OrderBookData :=
  deserialiseObjs (extractObjects cs) d

theorem takeWhile_append_all {p : Char → Bool} :
    ∀ {xs : List Char} (ys : List Char), (∀ x ∈ xs, p x = true) →
      (xs ++ ys).takeWhile p = xs ++ ys.takeWhile p
  | [], ys, _ => rfl
  | x :: xs, ys, h => by
    have hx : p x = true := h x (List.mem_cons_self x xs)
    simp only [List.cons_append, List.takeWhile_cons, hx, if_true]
    rw [takeWhile_append_all ys (fun y hy => h y (List.mem_cons_of_mem x hy))]

theorem dropWhile_append_all {p : Char → Bool} :
    ∀ {xs : List Char} (ys : List Char), (∀ x ∈ xs, p x = true) →
      (xs ++ ys).dropWhile p = ys.dropWhile p
  | [], ys, _ => rfl
  | x :: xs, ys, h => by
    have hx : p x = true := h x (List.mem_cons_self x xs)
    simp only [List.cons_append, List.dropWhile_cons, hx, if_true]
    exact dropWhile_append_all ys (fun y hy => h y (List.mem_cons_of_mem x hy))

theorem takeWhile_all {p : Char → Bool} :
    ∀ {xs : List Char}, (∀ x ∈ xs, p x = true) → xs.takeWhile p = xs
  | [], _ => rfl
  | x :: xs, h => by
    have hx : p x = true := h x (List.mem_cons_self x xs)
    simp only [List.takeWhile_cons, hx, if_true]
    rw [takeWhile_all (fun y hy => h y (List.mem_cons_of_mem x hy))]

theorem dropWhile_all {p : Char → Bool} {xs : List Char}
    (h : ∀ x ∈ xs, p x = true) : xs.dropWhile p = [] := by
  induction xs with
  | nil => rfl
  | cons x xs ih =>
    have hx : p x = true := h x (List.mem_cons_self x xs)
    simp only [List.dropWhile_cons, hx, if_true]
    exact ih (fun y hy => h y (List.mem_cons_of_mem x hy))

theorem takeWhile_cons_false {p : Char → Bool} {x : Char} (xs : List Char)
    (h : p x = false) : (x :: xs).takeWhile p = [] := by
  simp [List.takeWhile_cons, h]

theorem dropWhile_cons_false {p : Char → Bool} {x : Char} (xs : List Char)
    (h : p x = false) : (x :: xs).dropWhile p = x :: xs := by
  simp [List.dropWhile_cons, h]

theorem splitTokensF_irrel :
    ∀ (f1 f2 : Nat) (cs : List Char), cs.length ≤ f1 →
      cs.length ≤ f2 → splitTokensF f1 cs = splitTokensF f2 cs := by
  intro f1
  induction f1 with
  | zero =>
    intro f2 cs h1 _
    have : cs = [] := List.length_eq_zero.mp (Nat.le_zero.mp h1)
    subst this
    cases f2 <;> simp [splitTokensF]
  | succ f ih =>
    intro f2 cs h1 h2
    cases f2 with
    | zero =>
      have : cs = [] := List.length_eq_zero.mp (Nat.le_zero.mp h2)
      subst this
      simp [splitTokensF]
    | succ g =>
      by_cases hcs : cs = []
      · simp [splitTokensF, hcs]
      · rcases hw : cs.dropWhile (fun c => !(c == ',')) with _ | ⟨c, rest⟩
        · simp [splitTokensF, hcs, hw]
        · have hd : (cs.dropWhile (fun c => !(c == ','))).length ≤ cs.length :=
            (List.dropWhile_sublist _).length_le
          rw [hw] at hd
          simp only [List.length_cons] at hd
          have heq := ih g rest (by omega) (by omega)
          simp [splitTokensF, hcs, hw, heq]

theorem extractObjectsF_irrel :
    ∀ (f1 f2 : Nat) (cs : List Char), cs.length ≤ f1 →
      cs.length ≤ f2 → extractObjectsF f1 cs = extractObjectsF f2 cs := by
  intro f1
  induction f1 with
  | zero =>
    intro f2 cs h1 _
    have : cs = [] := List.length_eq_zero.mp (Nat.le_zero.mp h1)
    subst this
    cases f2 <;> simp [extractObjectsF]
  | succ f ih =>
    intro f2 cs h1 h2
    cases f2 with
    | zero =>
      have : cs = [] := List.length_eq_zero.mp (Nat.le_zero.mp h2)
      subst this
      simp [extractObjectsF]
    | succ g =>
      rcases hw1 : cs.dropWhile (fun c => !(c == '{')) with _ | ⟨c, afterBrace⟩
      · simp [extractObjectsF, hw1]
      · have hd1 : (cs.dropWhile (fun c => !(c == '{'))).length ≤ cs.length :=
          (List.dropWhile_sublist _).length_le
        rw [hw1] at hd1
        simp only [List.length_cons] at hd1
        rcases hw2 : afterBrace.dropWhile (fun c => !(c == '}')) with _ | ⟨c2, afterClose⟩
        · simp [extractObjectsF, hw1, hw2]
        · have hd2 : (afterBrace.dropWhile (fun c => !(c == '}'))).length ≤ afterBrace.length :=
            (List.dropWhile_sublist _).length_le
          rw [hw2] at hd2
          simp only [List.length_cons] at hd2
          have heq := ih g afterClose (by omega) (by omega)
          simp [extractObjectsF, hw1, hw2, heq]

theorem drainMinF_irrel :
    ∀ (f1 f2 : Nat) (l : List Order), l.length ≤ f1 →
      l.length ≤ f2 → drainMinF f1 l = drainMinF f2 l := by
  intro f1
  induction f1 with
  | zero =>
    intro f2 l h1 _
    have : l = [] := List.length_eq_zero.mp (Nat.le_zero.mp h1)
    subst this
    cases f2 <;> simp [drainMinF, minPriceSelect, selectBest]
  | succ f ih =>
    intro f2 l h1 h2
    cases f2 with
    | zero =>
      have : l = [] := List.length_eq_zero.mp (Nat.le_zero.mp h2)
      subst this
      simp [drainMinF, minPriceSelect, selectBest]
    | succ g =>
      rcases hw : minPriceSelect l with _ | ⟨o, rest⟩
      · simp [drainMinF, hw]
      · have hlen := selectBest_length hw
        have heq := ih g rest (by omega) (by omega)
        simp [drainMinF, hw, heq]

theorem drainMaxF_irrel :
    ∀ (f1 f2 : Nat) (l : List Order), l.length ≤ f1 →
      l.length ≤ f2 → drainMaxF f1 l = drainMaxF f2 l := by
  intro f1
  induction f1 with
  | zero =>
    intro f2 l h1 _
    have : l = [] := List.length_eq_zero.mp (Nat.le_zero.mp h1)
    subst this
    cases f2 <;> simp [drainMaxF, maxPriceSelect, selectBest]
  | succ f ih =>
    intro f2 l h1 h2
    cases f2 with
    | zero =>
      have : l = [] := List.length_eq_zero.mp (Nat.le_zero.mp h2)
      subst this
      simp [drainMaxF, maxPriceSelect, selectBest]
    | succ g =>
      rcases hw : maxPriceSelect l with _ | ⟨o, rest⟩
      · simp [drainMaxF, hw]
      · have hlen := selectBest_length hw
        have heq := ih g rest (by omega) (by omega)
        simp [drainMaxF, hw, heq]

theorem natToDigitsF_irrel :
    ∀ (f1 f2 n : Nat), n < f1 → n < f2 →
      natToDigitsF f1 n = natToDigitsF f2 n := by
  intro f1
  induction f1 with
  | zero => intro f2 n h1 _; omega
  | succ f ih =>
    intro f2 n h1 h2
    cases f2 with
    | zero => omega
    | succ g =>
      by_cases hn : n < 10
      · simp [natToDigitsF, hn]
      · have hdiv : n / 10 < n := Nat.div_lt_self (by omega) (by omega)
        have heq := ih g (n / 10) (by omega) (by omega)
        simp [natToDigitsF, hn, heq]

theorem splitTokensF_step (f : Nat) {xs : List Char} (rest : List Char)
    (hxs : ∀ c ∈ xs, (c == ',') = false) :
    splitTokensF (f + 1) (xs ++ ',' :: rest) = xs :: splitTokensF f rest := by
  simp only [splitTokensF]
  rw [if_neg (by simp)]
  have htw : (xs ++ ',' :: rest).takeWhile (fun c => !(c == ',')) = xs := by
    rw [takeWhile_append_all (',' :: rest) (fun c hc => by simp [hxs c hc])]
    rw [takeWhile_cons_false rest (by simp)]
    simp
  have hdw : (xs ++ ',' :: rest).dropWhile (fun c => !(c == ',')) = ',' :: rest := by
    rw [dropWhile_append_all (',' :: rest) (fun c hc => by simp [hxs c hc])]
    exact dropWhile_cons_false rest (by simp)
  rw [htw, hdw]

theorem splitTokens_cons {xs : List Char} (rest : List Char)
    (hxs : ∀ c ∈ xs, (c == ',') = false) :
    splitTokens (xs ++ ',' :: rest) = xs :: splitTokens rest := by
  have hl : (xs ++ ',' :: rest).length = xs.length + rest.length + 1 := by
    simp [List.length_append]
    omega
  rw [splitTokens, hl, splitTokensF_step (xs.length + rest.length) rest hxs]
  rw [splitTokensF_irrel (xs.length + rest.length) rest.length rest (by omega) (le_refl _)]
  rfl

theorem splitTokens_single {xs : List Char} (hne : xs ≠ [])
    (hxs : ∀ c ∈ xs, (c == ',') = false) : splitTokens xs = [xs] := by
  obtain ⟨x, t, rfl⟩ := List.exists_cons_of_ne_nil hne
  simp only [splitTokens, List.length_cons, splitTokensF]
  rw [if_neg (by simp)]
  have htw : (x :: t).takeWhile (fun c => !(c == ',')) = x :: t :=
    takeWhile_all (fun c hc => by simp [hxs c hc])
  have hdw : (x :: t).dropWhile (fun c => !(c == ',')) = [] :=
    dropWhile_all (fun c hc => by simp [hxs c hc])
  rw [htw, hdw]

theorem extractObjectsF_step (f : Nat) {pre obj : List Char} (rest : List Char)
    (hpre : ∀ c ∈ pre, (c == '{') = false)
    (hobj : ∀ c ∈ obj, (c == '{') = false ∧ (c == '}') = false) :
    extractObjectsF (f + 1) (pre ++ '{' :: obj ++ '}' :: rest) =
      obj :: extractObjectsF f rest := by
  simp only [extractObjectsF]
  have hdw1 : (pre ++ '{' :: obj ++ '}' :: rest).dropWhile (fun c => !(c == '{')) =
      '{' :: (obj ++ '}' :: rest) := by
    have : pre ++ '{' :: obj ++ '}' :: rest = pre ++ '{' :: (obj ++ '}' :: rest) := by
      simp
    rw [this, dropWhile_append_all ('{' :: (obj ++ '}' :: rest))
      (fun c hc => by simp [hpre c hc])]
    exact dropWhile_cons_false _ (by simp)
  have htw2 : (obj ++ '}' :: rest).takeWhile (fun c => !(c == '}')) = obj := by
    rw [takeWhile_append_all ('}' :: rest) (fun c hc => by simp [(hobj c hc).2])]
    rw [takeWhile_cons_false rest (by simp)]
    simp
  have hdw2 : (obj ++ '}' :: rest).dropWhile (fun c => !(c == '}')) = '}' :: rest := by
    rw [dropWhile_append_all ('}' :: rest) (fun c hc => by simp [(hobj c hc).2])]
    exact dropWhile_cons_false rest (by simp)
  simp only [hdw1, hdw2, htw2]

theorem extractObjects_no_brace {cs : List Char}
    (h : ∀ c ∈ cs, (c == '{') = false) : extractObjects cs = [] := by
  rw [extractObjects]
  cases hl : cs.length with
  | zero => simp [extractObjectsF]
  | succ n =>
    simp only [extractObjectsF]
    rw [dropWhile_all (fun c hc => by simp [h c hc])]

theorem extractObjects_cons {pre obj : List Char} (rest : List Char)
    (hpre : ∀ c ∈ pre, (c == '{') = false)
    (hobj : ∀ c ∈ obj, (c == '{') = false ∧ (c == '}') = false) :
    extractObjects (pre ++ '{' :: obj ++ '}' :: rest) =
      obj :: extractObjects rest := by
  have hl : (pre ++ '{' :: obj ++ '}' :: rest).length =
      (pre.length + obj.length + rest.length + 1) + 1 := by
    simp [List.length_append]
    omega
  rw [extractObjects, hl,
    extractObjectsF_step (pre.length + obj.length + rest.length + 1) rest hpre hobj]
  rw [extractObjectsF_irrel (pre.length + obj.length + rest.length + 1)
    rest.length rest (by omega) (le_refl _)]
  rfl

/-- Characters that pass untouched through the tokenizer and cleaner:
not whitespace, not a double quote, not a comma, colon or brace. -/
def cleanCharB (c : Char) : Bool :=
  !(isSpaceC c) && !(c == quoteC) && !(c == ',') && !(c == ':') &&
    !(c == '{') && !(c == '}')

/-- Type strings whose characters are all plain, as "ASK" and "BID" are. -/
def cleanType (t : List Char) : Prop :=
  ∀ c ∈ t, cleanCharB c = true

theorem charBeq_false {c d : Char} (h : c.toNat ≠ d.toNat) : (c == d) = false := by
  apply beq_eq_false_iff_ne.mpr
  intro he
  subst he
  exact h rfl

theorem isDigitC_bounds {c : Char} (h : isDigitC c = true) :
    48 ≤ c.toNat ∧ c.toNat ≤ 57 := by
  simp only [isDigitC, Bool.and_eq_true, decide_eq_true_eq] at h
  exact h

theorem charBeq_false_of_bounds {c d : Char} (h48 : 48 ≤ c.toNat)
    (h57 : c.toNat ≤ 57) (hd : d.toNat < 48 ∨ 57 < d.toNat) :
    (c == d) = false :=
  charBeq_false (by omega)

theorem isSpaceC_false_of_digit {c : Char} (h : isDigitC c = true) :
    isSpaceC c = false := by
  obtain ⟨h1, h2⟩ := isDigitC_bounds h
  simp only [isSpaceC, Bool.or_eq_false_iff]
  refine ⟨⟨⟨⟨⟨?_, ?_⟩, ?_⟩, ?_⟩, ?_⟩, ?_⟩ <;>
    exact charBeq_false_of_bounds h1 h2 (by decide)

theorem cleanCharB_of_digit {c : Char} (h : isDigitC c = true) :
    cleanCharB c = true := by
  obtain ⟨h1, h2⟩ := isDigitC_bounds h
  simp only [cleanCharB, Bool.and_eq_true, Bool.not_eq_true']
  refine ⟨⟨⟨⟨⟨isSpaceC_false_of_digit h, ?_⟩, ?_⟩, ?_⟩, ?_⟩, ?_⟩ <;>
    exact charBeq_false_of_bounds h1 h2 (by decide)

theorem natToDigits_lt {n : Nat} (h : n < 10) : natToDigits n = [digitChar n] := by
  simp [natToDigits, natToDigitsF, h]

theorem natToDigits_ge {n : Nat} (h : ¬ n < 10) :
    natToDigits n = natToDigits (n / 10) ++ [digitChar (n % 10)] := by
  have hdiv : n / 10 < n := Nat.div_lt_self (by omega) (by omega)
  have hstep : natToDigitsF (n + 1) n =
      natToDigitsF n (n / 10) ++ [digitChar (n % 10)] := by
    simp [natToDigitsF, h]
  rw [natToDigits, hstep,
    natToDigitsF_irrel n (n / 10 + 1) (n / 10) (by omega) (by omega)]
  rfl

theorem digitChar_isDigit {n : Nat} (h : n < 10) :
    isDigitC (digitChar n) = true := by
  interval_cases n <;> decide

theorem digitChar_val {n : Nat} (h : n < 10) : (digitChar n).toNat - 48 = n := by
  interval_cases n <;> decide

theorem natToDigits_all_digit (n : Nat) :
    ∀ c ∈ natToDigits n, isDigitC c = true := by
  induction n using Nat.strong_induction_on with
  | _ n ih =>
    by_cases h : n < 10
    · rw [natToDigits_lt h]
      intro c hc
      simp only [List.mem_singleton] at hc
      subst hc
      exact digitChar_isDigit h
    · rw [natToDigits_ge h]
      intro c hc
      rcases List.mem_append.mp hc with hc | hc
      · exact ih (n / 10) (Nat.div_lt_self (by omega) (by omega)) c hc
      · simp only [List.mem_singleton] at hc
        subst hc
        exact digitChar_isDigit (Nat.mod_lt n (by omega))

theorem natToDigits_ne_nil (n : Nat) : natToDigits n ≠ [] := by
  by_cases h : n < 10
  · rw [natToDigits_lt h]; simp
  · rw [natToDigits_ge h]; simp

theorem digitsToNat_append_digit (ds : List Char) (c : Char) :
    digitsToNat (ds ++ [c]) = 10 * digitsToNat ds + (c.toNat - 48) := by
  simp [digitsToNat, List.foldl_append]

theorem digitsToNat_natToDigits (n : Nat) :
    digitsToNat (natToDigits n) = n := by
  induction n using Nat.strong_induction_on with
  | _ n ih =>
    by_cases h : n < 10
    · rw [natToDigits_lt h]
      have := digitChar_val h
      simp [digitsToNat]
      omega
    · rw [natToDigits_ge h, digitsToNat_append_digit]
      rw [ih (n / 10) (Nat.div_lt_self (by omega) (by omega))]
      have := digitChar_val (Nat.mod_lt n (show 0 < 10 by omega))
      omega

theorem intToChars_all_clean (i : Int) :
    ∀ c ∈ intToChars i, cleanCharB c = true := by
  intro c hc
  rw [intToChars] at hc
  split_ifs at hc with hneg
  · rcases List.mem_cons.mp hc with hc | hc
    · subst hc; decide
    · exact cleanCharB_of_digit (natToDigits_all_digit _ c hc)
  · exact cleanCharB_of_digit (natToDigits_all_digit _ c hc)

theorem dropWhile_no_space {cs : List Char}
    (h : ∀ c ∈ cs, isSpaceC c = false) : cs.dropWhile isSpaceC = cs := by
  cases cs with
  | nil => rfl
  | cons c rest => exact dropWhile_cons_false rest (h c (List.mem_cons_self c rest))

theorem digitsVal_all_digits {cs : List Char} (hne : cs ≠ [])
    (h : ∀ c ∈ cs, isDigitC c = true) :
    digitsVal cs = some (digitsToNat cs) := by
  rw [digitsVal, takeWhile_all h]
  simp [hne]

/-- `std::stoi` inverts `std::to_string` on every int. -/
theorem stoi_intToChars (i : Int) : stoi (intToChars i) = some i := by
  by_cases hneg : i < 0
  · rw [intToChars, if_pos hneg]
    unfold stoi
    rw [dropWhile_cons_false _ (show isSpaceC '-' = false from rfl)]
    show Option.map (fun n => -Int.ofNat n) (digitsVal (natToDigits (-i).toNat)) = some i
    rw [digitsVal_all_digits (natToDigits_ne_nil _) (natToDigits_all_digit _)]
    simp only [Option.map_some']
    rw [digitsToNat_natToDigits]
    congr 1
    simp only [Int.ofNat_eq_natCast]
    omega
  · rw [intToChars, if_neg hneg]
    have hdigits := natToDigits_all_digit (i.toNat)
    obtain ⟨d, rest, heq⟩ := List.exists_cons_of_ne_nil (natToDigits_ne_nil (i.toNat))
    have hd : isDigitC d = true := by
      apply hdigits
      rw [heq]
      exact List.mem_cons_self d rest
    obtain ⟨h48, h57⟩ := isDigitC_bounds hd
    have hne1 : ¬ d = '-' := by intro hc; subst hc; revert h48; decide
    have hne2 : ¬ d = '+' := by intro hc; subst hc; revert h48; decide
    have hdw : (natToDigits i.toNat).dropWhile isSpaceC = natToDigits i.toNat :=
      dropWhile_no_space (fun c hc => isSpaceC_false_of_digit (hdigits c hc))
    unfold stoi
    rw [hdw, heq]
    show (if d = '-' then Option.map (fun n => -Int.ofNat n) (digitsVal rest)
        else if d = '+' then Option.map Int.ofNat (digitsVal rest)
        else Option.map Int.ofNat (digitsVal (d :: rest))) = some i
    rw [if_neg hne1, if_neg hne2, ← heq]
    rw [digitsVal_all_digits (natToDigits_ne_nil _) hdigits]
    simp only [Option.map_some']
    rw [digitsToNat_natToDigits]
    congr 1
    simp only [Int.ofNat_eq_natCast]
    omega

theorem cleanChars_append (a b : List Char) :
    cleanChars (a ++ b) = cleanChars a ++ cleanChars b := by
  simp [cleanChars, List.filter_append]

theorem cleanChars_of_clean {l : List Char}
    (h : ∀ c ∈ l, cleanCharB c = true) : cleanChars l = l := by
  rw [cleanChars]
  have h1 : l.filter (fun c => !(isSpaceC c)) = l := by
    rw [List.filter_eq_self]
    intro c hc
    have := h c hc
    simp only [cleanCharB, Bool.and_eq_true] at this
    exact this.1.1.1.1.1
  rw [h1, List.filter_eq_self]
  intro c hc
  have := h c hc
  simp only [cleanCharB, Bool.and_eq_true] at this
  exact this.1.1.1.1.2

/-- The first token of a record: `"type":"T"`. -/
def tokenType (o : Order) : List Char :=
  [quoteC] ++ keyType ++ [quoteC, ':', quoteC] ++ o.type ++ [quoteC]

/-- The second token of a record: `"price":P`. -/
def tokenPrice (o : Order) : List Char :=
  [quoteC] ++ keyPrice ++ [quoteC, ':'] ++ intToChars o.price

/-- The third token of a record: `"quantity":Q`. -/
def tokenQuantity (o : Order) : List Char :=
  [quoteC] ++ keyQuantity ++ [quoteC, ':'] ++ intToChars o.quantity

/-- The fourth token of a record: `"orderID":I`. -/
def tokenOrderID (o : Order) : List Char :=
  [quoteC] ++ keyOrderID ++ [quoteC, ':'] ++ intToChars o.orderID

theorem innerChars_decomp (o : Order) :
    innerChars o = tokenType o ++ ',' ::
      (tokenPrice o ++ ',' :: (tokenQuantity o ++ ',' :: tokenOrderID o)) := by
  simp [innerChars, tokenType, tokenPrice, tokenQuantity, tokenOrderID,
    keyType, keyPrice, keyQuantity, keyOrderID]

theorem forall_mem_append {P : Char → Prop} {xs ys : List Char}
    (hx : ∀ c ∈ xs, P c) (hy : ∀ c ∈ ys, P c) : ∀ c ∈ xs ++ ys, P c := by
  intro c hc
  rcases List.mem_append.mp hc with h | h
  · exact hx c h
  · exact hy c h

theorem cleanCharB_spec {c : Char} (h : cleanCharB c = true) :
    isSpaceC c = false ∧ (c == quoteC) = false ∧ (c == ',') = false ∧
    (c == ':') = false ∧ (c == '{') = false ∧ (c == '}') = false := by
  simp only [cleanCharB, Bool.and_eq_true, Bool.not_eq_true'] at h
  exact ⟨h.1.1.1.1.1, h.1.1.1.1.2, h.1.1.1.2, h.1.1.2, h.1.2, h.2⟩

theorem intChars_no_comma (i : Int) : ∀ c ∈ intToChars i, (c == ',') = false :=
  fun c hc => (cleanCharB_spec (intToChars_all_clean i c hc)).2.2.1

theorem tokenType_no_comma {o : Order} (h : cleanType o.type) :
    ∀ c ∈ tokenType o, (c == ',') = false := by
  have htype : ∀ c ∈ o.type, (c == ',') = false :=
    fun c hc => (cleanCharB_spec (h c hc)).2.2.1
  have h1 : ∀ c ∈ ([quoteC] : List Char), (c == ',') = false := by decide
  have h2 : ∀ c ∈ keyType, (c == ',') = false := by decide
  have h3 : ∀ c ∈ ([quoteC, ':', quoteC] : List Char), (c == ',') = false := by
    decide
  simp only [tokenType]
  exact forall_mem_append
    (forall_mem_append (forall_mem_append (forall_mem_append h1 h2) h3) htype) h1

theorem tokenPrice_no_comma (o : Order) :
    ∀ c ∈ tokenPrice o, (c == ',') = false := by
  have h1 : ∀ c ∈ ([quoteC] : List Char), (c == ',') = false := by decide
  have h2 : ∀ c ∈ keyPrice, (c == ',') = false := by decide
  have h3 : ∀ c ∈ ([quoteC, ':'] : List Char), (c == ',') = false := by decide
  simp only [tokenPrice]
  exact forall_mem_append (forall_mem_append (forall_mem_append h1 h2) h3)
    (intChars_no_comma o.price)

theorem tokenQuantity_no_comma (o : Order) :
    ∀ c ∈ tokenQuantity o, (c == ',') = false := by
  have h1 : ∀ c ∈ ([quoteC] : List Char), (c == ',') = false := by decide
  have h2 : ∀ c ∈ keyQuantity, (c == ',') = false := by decide
  have h3 : ∀ c ∈ ([quoteC, ':'] : List Char), (c == ',') = false := by decide
  simp only [tokenQuantity]
  exact forall_mem_append (forall_mem_append (forall_mem_append h1 h2) h3)
    (intChars_no_comma o.quantity)

theorem tokenOrderID_no_comma (o : Order) :
    ∀ c ∈ tokenOrderID o, (c == ',') = false := by
  have h1 : ∀ c ∈ ([quoteC] : List Char), (c == ',') = false := by decide
  have h2 : ∀ c ∈ keyOrderID, (c == ',') = false := by decide
  have h3 : ∀ c ∈ ([quoteC, ':'] : List Char), (c == ',') = false := by decide
  simp only [tokenOrderID]
  exact forall_mem_append (forall_mem_append (forall_mem_append h1 h2) h3)
    (intChars_no_comma o.orderID)

theorem splitTokens_innerChars {o : Order} (h : cleanType o.type) :
    splitTokens (innerChars o) =
      [tokenType o, tokenPrice o, tokenQuantity o, tokenOrderID o] := by
  rw [innerChars_decomp]
  rw [splitTokens_cons _ (tokenType_no_comma h)]
  rw [splitTokens_cons _ (tokenPrice_no_comma o)]
  rw [splitTokens_cons _ (tokenQuantity_no_comma o)]
  rw [splitTokens_single (by simp [tokenOrderID]) (tokenOrderID_no_comma o)]

theorem cleanChars_type {t : List Char} (h : cleanType t) :
    cleanChars ([quoteC] ++ t ++ [quoteC]) = t := by
  rw [cleanChars_append, cleanChars_append]
  rw [cleanChars_of_clean h]
  rw [show cleanChars [quoteC] = [] from by decide]
  simp

theorem parsePair_tokenType {o : Order} (h : cleanType o.type) :
    parsePair (tokenType o) = (keyType, o.type) := by
  have hdecomp : tokenType o =
      ([quoteC] ++ keyType ++ [quoteC]) ++ ':' :: ([quoteC] ++ o.type ++ [quoteC]) := by
    simp [tokenType]
  have hA : ∀ c ∈ ([quoteC] ++ keyType ++ [quoteC] : List Char),
      (!(c == ':')) = true := by decide
  have htw : (tokenType o).takeWhile (fun c => !(c == ':')) =
      [quoteC] ++ keyType ++ [quoteC] := by
    rw [hdecomp, takeWhile_append_all _ hA, takeWhile_cons_false _ (by decide)]
    simp
  have hdw : (tokenType o).dropWhile (fun c => !(c == ':')) =
      ':' :: ([quoteC] ++ o.type ++ [quoteC]) := by
    rw [hdecomp, dropWhile_append_all _ hA]
    exact dropWhile_cons_false _ (by decide)
  simp only [parsePair, htw, hdw]
  rw [cleanChars_type h]
  rfl

theorem parsePair_intToken (key : List Char) (i : Int)
    (hA : ∀ c ∈ ([quoteC] ++ key ++ [quoteC] : List Char), (!(c == ':')) = true)
    (hkey : cleanChars ([quoteC] ++ key ++ [quoteC]) = key) :
    parsePair (([quoteC] ++ key ++ [quoteC, ':']) ++ intToChars i) =
      (key, intToChars i) := by
  have hdecomp : ([quoteC] ++ key ++ [quoteC, ':']) ++ intToChars i =
      ([quoteC] ++ key ++ [quoteC]) ++ ':' :: intToChars i := by
    simp
  have htw : ((([quoteC] ++ key ++ [quoteC, ':']) ++ intToChars i)).takeWhile
      (fun c => !(c == ':')) = [quoteC] ++ key ++ [quoteC] := by
    rw [hdecomp, takeWhile_append_all _ hA, takeWhile_cons_false _ (by decide)]
    simp
  have hdw : ((([quoteC] ++ key ++ [quoteC, ':']) ++ intToChars i)).dropWhile
      (fun c => !(c == ':')) = ':' :: intToChars i := by
    rw [hdecomp, dropWhile_append_all _ hA]
    exact dropWhile_cons_false _ (by decide)
  simp only [parsePair, htw, hdw]
  rw [hkey, cleanChars_of_clean (intToChars_all_clean i)]

theorem parsePair_tokenPrice (o : Order) :
    parsePair (tokenPrice o) = (keyPrice, intToChars o.price) := by
  have : tokenPrice o = ([quoteC] ++ keyPrice ++ [quoteC, ':']) ++ intToChars o.price := by
    simp [tokenPrice]
  rw [this]
  exact parsePair_intToken keyPrice o.price (by decide) (by decide)

theorem parsePair_tokenQuantity (o : Order) :
    parsePair (tokenQuantity o) = (keyQuantity, intToChars o.quantity) := by
  have : tokenQuantity o =
      ([quoteC] ++ keyQuantity ++ [quoteC, ':']) ++ intToChars o.quantity := by
    simp [tokenQuantity]
  rw [this]
  exact parsePair_intToken keyQuantity o.quantity (by decide) (by decide)

theorem parsePair_tokenOrderID (o : Order) :
    parsePair (tokenOrderID o) = (keyOrderID, intToChars o.orderID) := by
  have : tokenOrderID o =
      ([quoteC] ++ keyOrderID ++ [quoteC, ':']) ++ intToChars o.orderID := by
    simp [tokenOrderID]
  rw [this]
  exact parsePair_intToken keyOrderID o.orderID (by decide) (by decide)

theorem objFields_innerChars {o : Order} (h : cleanType o.type) :
    objFields (innerChars o) =
      [(keyType, o.type), (keyPrice, intToChars o.price),
       (keyQuantity, intToChars o.quantity), (keyOrderID, intToChars o.orderID)] := by
  rw [objFields, splitTokens_innerChars h]
  simp only [List.map_cons, List.map_nil]
  rw [parsePair_tokenType h, parsePair_tokenPrice, parsePair_tokenQuantity,
    parsePair_tokenOrderID]

theorem mapLookup_fields (t p q i : List Char) :
    mapLookup keyType [(keyType, t), (keyPrice, p), (keyQuantity, q),
        (keyOrderID, i)] = t ∧
    mapLookup keyPrice [(keyType, t), (keyPrice, p), (keyQuantity, q),
        (keyOrderID, i)] = p ∧
    mapLookup keyQuantity [(keyType, t), (keyPrice, p), (keyQuantity, q),
        (keyOrderID, i)] = q ∧
    mapLookup keyOrderID [(keyType, t), (keyPrice, p), (keyQuantity, q),
        (keyOrderID, i)] = i := by
  have h1 : keyPrice ≠ keyType := by decide
  have h2 : keyQuantity ≠ keyType := by decide
  have h3 : keyOrderID ≠ keyType := by decide
  have h4 : keyType ≠ keyPrice := by decide
  have h5 : keyQuantity ≠ keyPrice := by decide
  have h6 : keyOrderID ≠ keyPrice := by decide
  have h7 : keyType ≠ keyQuantity := by decide
  have h8 : keyPrice ≠ keyQuantity := by decide
  have h9 : keyOrderID ≠ keyQuantity := by decide
  have h10 : keyType ≠ keyOrderID := by decide
  have h11 : keyPrice ≠ keyOrderID := by decide
  have h12 : keyQuantity ≠ keyOrderID := by decide
  refine ⟨?_, ?_, ?_, ?_⟩ <;>
    simp [mapLookup, h1, h2, h3, h4, h5, h6, h7, h8, h9, h10, h11, h12]

/-- The per-record update of the book `deserialise` performs. -/
def addRecord (d : OrderBookData) (o : Order) : OrderBookData :=
  if o.type = strASK then addAskOrder o d
  else if o.type = strBID then addBidOrder o d else d

theorem deserialiseObjs_cons_clean {o : Order} (h : cleanType o.type)
    (rest : List (List Char)) (d : OrderBookData) :
    deserialiseObjs (innerChars o :: rest) d =
      deserialiseObjs rest (addRecord d o) := by
  obtain ⟨ht, hp, hq, hi⟩ := mapLookup_fields o.type (intToChars o.price)
    (intToChars o.quantity) (intToChars o.orderID)
  simp only [deserialiseObjs, objFields_innerChars h, ht, hp, hq, hi,
    stoi_intToChars]
  rfl

theorem deserialiseObjs_map {os : List Order} :
    ∀ d : OrderBookData, (∀ o ∈ os, cleanType o.type) →
      deserialiseObjs (os.map innerChars) d = some (os.foldl addRecord d) := by
  induction os with
  | nil => intro d _; rfl
  | cons o os ih =>
    intro d h
    rw [List.map_cons,
      deserialiseObjs_cons_clean (h o (List.mem_cons_self o os)),
      ih (addRecord d o) (fun x hx => h x (List.mem_cons_of_mem o hx)),
      List.foldl_cons]

theorem foldl_addRecord_sides (os : List Order) :
    ∀ d : OrderBookData,
      (os.foldl addRecord d).bestAsk =
        (os.filter (fun o => decide (o.type = strASK))).reverse ++ d.bestAsk ∧
      (os.foldl addRecord d).bestBid =
        (os.filter (fun o => decide (o.type = strBID))).reverse ++ d.bestBid := by
  induction os with
  | nil => intro d; simp
  | cons o os ih =>
    intro d
    rw [List.foldl_cons]
    obtain ⟨iha, ihb⟩ := ih (addRecord d o)
    have hne : ¬ strBID = strASK := by decide
    have hne2 : ¬ strASK = strBID := by decide
    by_cases hA : o.type = strASK
    · have hB : ¬ o.type = strBID := by rw [hA]; decide
      constructor
      · rw [iha]
        simp [addRecord, hA, hB, hne2, addAskOrder, List.filter_cons,
          List.reverse_cons, List.append_assoc]
      · rw [ihb]
        simp [addRecord, hA, hB, hne2, addAskOrder, List.filter_cons]
    · by_cases hB : o.type = strBID
      · constructor
        · rw [iha]
          simp [addRecord, hA, hB, hne, addBidOrder, List.filter_cons]
        · rw [ihb]
          simp [addRecord, hA, hB, hne, addBidOrder, List.filter_cons,
            List.reverse_cons, List.append_assoc]
      · constructor
        · rw [iha]
          simp [addRecord, hA, hB, List.filter_cons]
        · rw [ihb]
          simp [addRecord, hA, hB, List.filter_cons]

/-- Characters allowed anywhere in a record's text: plain characters or
the JSON glue (quote, colon, comma). -/
def glueOK (c : Char) : Bool :=
  cleanCharB c || (c == quoteC) || (c == ':') || (c == ',')

theorem innerChars_glueOK {o : Order} (h : cleanType o.type) :
    (innerChars o).all glueOK = true := by
  have htype : o.type.all glueOK = true :=
    List.all_eq_true.mpr (fun c hc => by simp [glueOK, h c hc])
  have hp : (intToChars o.price).all glueOK = true :=
    List.all_eq_true.mpr (fun c hc => by
      simp [glueOK, intToChars_all_clean o.price c hc])
  have hq : (intToChars o.quantity).all glueOK = true :=
    List.all_eq_true.mpr (fun c hc => by
      simp [glueOK, intToChars_all_clean o.quantity c hc])
  have hi : (intToChars o.orderID).all glueOK = true :=
    List.all_eq_true.mpr (fun c hc => by
      simp [glueOK, intToChars_all_clean o.orderID c hc])
  simp only [innerChars, List.all_append, htype, hp, hq, hi,
    Bool.and_true, Bool.true_and]
  decide

theorem glueOK_no_brace {c : Char} (h : glueOK c = true) :
    (c == '{') = false ∧ (c == '}') = false := by
  simp only [glueOK, Bool.or_eq_true] at h
  rcases h with ((h | h) | h) | h
  · exact ⟨(cleanCharB_spec h).2.2.2.2.1, (cleanCharB_spec h).2.2.2.2.2⟩
  · rw [beq_iff_eq] at h; subst h; decide
  · rw [beq_iff_eq] at h; subst h; decide
  · rw [beq_iff_eq] at h; subst h; decide

theorem innerChars_no_brace {o : Order} (h : cleanType o.type) :
    ∀ c ∈ innerChars o, (c == '{') = false ∧ (c == '}') = false :=
  fun c hc => glueOK_no_brace (List.all_eq_true.mp (innerChars_glueOK h) c hc)

theorem extractObjects_join :
    ∀ (os : List Order) (pre : List Char),
      (∀ c ∈ pre, (c == '{') = false) → (∀ o ∈ os, cleanType o.type) →
      extractObjects (pre ++ joinComma (os.map toJSONChars) ++ [']']) =
        os.map innerChars := by
  intro os
  induction os with
  | nil =>
    intro pre hpre _
    rw [List.map_nil]
    apply extractObjects_no_brace
    intro c hc
    rcases List.mem_append.mp hc with hc | hc
    · rcases List.mem_append.mp hc with hc | hc
      · exact hpre c hc
      · simp [joinComma] at hc
    · simp only [List.mem_singleton] at hc
      subst hc
      decide
  | cons o os ih =>
    intro pre hpre hclean
    have hinner : ∀ c ∈ innerChars o, (c == '{') = false ∧ (c == '}') = false :=
      innerChars_no_brace (hclean o (List.mem_cons_self o os))
    cases os with
    | nil =>
      have hshape : pre ++ joinComma ([o].map toJSONChars) ++ [']'] =
          pre ++ '{' :: innerChars o ++ '}' :: [']'] := by
        simp [joinComma, toJSONChars]
      rw [hshape, extractObjects_cons [']'] hpre hinner]
      rw [extractObjects_no_brace (by intro c hc; simp only [List.mem_singleton] at hc; subst hc; decide)]
      rfl
    | cons o2 os2 =>
      have hshape : pre ++ joinComma ((o :: o2 :: os2).map toJSONChars) ++ [']'] =
          pre ++ '{' :: innerChars o ++ '}' ::
            ([','] ++ joinComma ((o2 :: os2).map toJSONChars) ++ [']']) := by
        simp [joinComma, toJSONChars]
      rw [hshape, extractObjects_cons _ hpre hinner]
      rw [ih [','] (by decide) (fun x hx => hclean x (List.mem_cons_of_mem o hx))]
      rfl

theorem extractObjects_fileContent {os : List Order}
    (h : ∀ o ∈ os, cleanType o.type) :
    extractObjects (fileContent os) = os.map innerChars := by
  have := extractObjects_join os ['['] (by decide) h
  simpa [fileContent] using this

theorem drainMinF_perm :
    ∀ (f : Nat) (l : List Order), l.length ≤ f → List.Perm (drainMinF f l) l := by
  intro f
  induction f with
  | zero =>
    intro l h
    have : l = [] := List.length_eq_zero.mp (Nat.le_zero.mp h)
    subst this
    simp [drainMinF]
  | succ f ih =>
    intro l h
    rcases hw : minPriceSelect l with _ | ⟨o, rest⟩
    · have : l = [] := selectBest_eq_none hw
      subst this
      simp [drainMinF, hw]
    · have hlen := selectBest_length hw
      simp only [drainMinF, hw]
      exact ((ih rest (by omega)).cons o).trans (selectBest_perm hw).symm

theorem drainMin_perm (l : List Order) : List.Perm (drainMin l) l :=
  drainMinF_perm l.length l le_rfl

theorem drainMaxF_perm :
    ∀ (f : Nat) (l : List Order), l.length ≤ f → List.Perm (drainMaxF f l) l := by
  intro f
  induction f with
  | zero =>
    intro l h
    have : l = [] := List.length_eq_zero.mp (Nat.le_zero.mp h)
    subst this
    simp [drainMaxF]
  | succ f ih =>
    intro l h
    rcases hw : maxPriceSelect l with _ | ⟨o, rest⟩
    · have : l = [] := selectBest_eq_none hw
      subst this
      simp [drainMaxF, hw]
    · have hlen := selectBest_length hw
      simp only [drainMaxF, hw]
      exact ((ih rest (by omega)).cons o).trans (selectBest_perm hw).symm

theorem drainMax_perm (l : List Order) : List.Perm (drainMax l) l :=
  drainMaxF_perm l.length l le_rfl

/-- C6: deserialising the output of serialise (load after save) yields a
book whose multiset of (side, price, quantity, id) tuples — here, whose
multiset of `Order` values per side, the side string being the `type`
field — equals that of the original book; the enumeration order may
differ. -/
theorem C6_round_trip (d : OrderBookData)
    (hA : ∀ o ∈ d.bestAsk, o.type = strASK)
    (hB : ∀ o ∈ d.bestBid, o.type = strBID) :
    ∃ d' : OrderBookData,
      deserialiseContent (serialiseContent d) (OrderBookData.mk [] []) = some d' ∧
      (d'.bestAsk : Multiset Order) = (d.bestAsk : Multiset Order) ∧
      (d'.bestBid : Multiset Order) = (d.bestBid : Multiset Order) := by
  have hcleanASK : cleanType strASK := by unfold cleanType; decide
  have hcleanBID : cleanType strBID := by unfold cleanType; decide
  have hdrA : ∀ o ∈ drainMin d.bestAsk, o.type = strASK :=
    fun o ho => hA o ((drainMin_perm d.bestAsk).mem_iff.mp ho)
  have hdrB : ∀ o ∈ drainMax d.bestBid, o.type = strBID :=
    fun o ho => hB o ((drainMax_perm d.bestBid).mem_iff.mp ho)
  have hclean : ∀ o ∈ drainMin d.bestAsk ++ drainMax d.bestBid,
      cleanType o.type := by
    intro o ho
    rcases List.mem_append.mp ho with ho | ho
    · rw [hdrA o ho]; exact hcleanASK
    · rw [hdrB o ho]; exact hcleanBID
  rw [serialiseContent, deserialiseContent, extractObjects_fileContent hclean,
    deserialiseObjs_map _ hclean]
  refine ⟨_, rfl, ?_, ?_⟩
  · obtain ⟨ha, _⟩ := foldl_addRecord_sides
      (drainMin d.bestAsk ++ drainMax d.bestBid) (OrderBookData.mk [] [])
    rw [ha]
    have hfa : (drainMin d.bestAsk).filter (fun o => decide (o.type = strASK)) =
        drainMin d.bestAsk := by
      rw [List.filter_eq_self]
      intro o ho
      simp [hdrA o ho]
    have hfb : (drainMax d.bestBid).filter (fun o => decide (o.type = strASK)) =
        [] := by
      apply List.eq_nil_of_length_eq_zero
      rw [List.length_eq_zero]
      rw [List.filter_eq_nil_iff]
      intro o ho
      simp [hdrB o ho]
      decide
    rw [List.filter_append, hfa, hfb, List.append_nil, List.append_nil]
    exact Multiset.coe_eq_coe.mpr
      ((drainMin d.bestAsk).reverse_perm.trans (drainMin_perm d.bestAsk))
  · obtain ⟨_, hb⟩ := foldl_addRecord_sides
      (drainMin d.bestAsk ++ drainMax d.bestBid) (OrderBookData.mk [] [])
    rw [hb]
    have hfa : (drainMin d.bestAsk).filter (fun o => decide (o.type = strBID)) =
        [] := by
      rw [List.filter_eq_nil_iff]
      intro o ho
      simp [hdrA o ho]
      decide
    have hfb : (drainMax d.bestBid).filter (fun o => decide (o.type = strBID)) =
        drainMax d.bestBid := by
      rw [List.filter_eq_self]
      intro o ho
      simp [hdrB o ho]
    rw [List.filter_append, hfa, hfb, List.nil_append, List.append_nil]
    exact Multiset.coe_eq_coe.mpr
      ((drainMax d.bestBid).reverse_perm.trans (drainMax_perm d.bestBid))

/-- Witness for C6: a book with one ask (100, 10, id 1) and one bid
(90, 5, id 2). -/
theorem C6_round_trip_witness :
    ∃ d' : OrderBookData,
      deserialiseContent (serialiseContent (OrderBookData.mk
          [Order.mk strASK 100 10 1] [Order.mk strBID 90 5 2]))
        (OrderBookData.mk [] []) = some d' ∧
      (d'.bestAsk : Multiset Order) =
        ([Order.mk strASK 100 10 1] : Multiset Order) ∧
      (d'.bestBid : Multiset Order) =
        ([Order.mk strBID 90 5 2] : Multiset Order) :=
  C6_round_trip (OrderBookData.mk [Order.mk strASK 100 10 1]
      [Order.mk strBID 90 5 2])
    (by decide) (by decide)

/-- C10: during deserialisation, a record whose price, quantity and
orderID fields parse as integers but whose type string is neither "ASK"
nor "BID" is silently skipped: no error is raised, no order is added for
it, and the remaining records are processed exactly as if the record
were absent. -/
theorem C10_unknown_type_skipped (inner : List Char)
    (rest : List (List Char)) (d : OrderBookData) (p q i : Int)
    (hp : stoi (mapLookup keyPrice (objFields inner)) = some p)
    (hq : stoi (mapLookup keyQuantity (objFields inner)) = some q)
    (hi : stoi (mapLookup keyOrderID (objFields inner)) = some i)
    (hA : mapLookup keyType (objFields inner) ≠ strASK)
    (hB : mapLookup keyType (objFields inner) ≠ strBID) :
    deserialiseObjs (inner :: rest) d = deserialiseObjs rest d := by
  simp only [deserialiseObjs, hp, hq, hi]
  rw [if_neg hA, if_neg hB]

/-- Witness for C10: a record with type "FOO" and integer fields 7, 8, 9
followed by no further records. -/
theorem C10_unknown_type_skipped_witness :
    deserialiseObjs [innerChars (Order.mk ['F', 'O', 'O'] 7 8 9)]
        (OrderBookData.mk [] []) =
      deserialiseObjs [] (OrderBookData.mk [] []) :=
  C10_unknown_type_skipped (innerChars (Order.mk ['F', 'O', 'O'] 7 8 9))
    [] (OrderBookData.mk [] []) 7 8 9
    (by decide) (by decide) (by decide) (by decide) (by decide)
